import Mathlib

/-!
# cosine_distance_loss (libnd4j): a shallow embedding

Source: `libnd4j/include/ops/declarable/generic/loss/cosineDistance.cpp`.

The operator body (`CUSTOM_OP_IMPL(cosine_distance_loss, ...)`) and its shape
function (`DECLARE_SHAPE_FN(cosine_distance_loss)`) are translated line by line.
The tensor runtime they call (`NDArray`, `ShapeUtils`, `ShapeBuilders`) is not
part of the source file; the few runtime operations used are modelled below,
each marked as such.  Elements are exact rationals.
-/

namespace nd4j

/-! ## Runtime model -/

/-- Modelled from the spec: the element data types a shape descriptor carries (a few
of the runtime's `DataType` values). -/
inductive DataType
  | HALF
  | FLOAT32
  | DOUBLE
  | INT32
  | INT64
  | BOOL
  deriving DecidableEq, Repr

/-- Modelled from the spec: the shape descriptor `Nd4jLong* shapeInfo`, reduced to
the parts read here: the dimensions (slot 0 holds their number, the rank), the
ordering character and the element data type. -/
structure ShapeInfo where
  shape : List Nat
  order : Char
  dtype : DataType
  deriving DecidableEq, Repr

/-- Modelled from the spec: an N-dimensional array, seen as its dimensions and an
element accessor by coordinates; only coordinates inside the dimensions are
elements of the array. -/
structure NDArray where
  shape : List Nat
  e : List Nat → ℚ

/-- All coordinates of an array of the given dimensions, in row-major order. -/
def indices : List Nat → List (List Nat)
  | [] => [[]]
  | d :: ds => (List.range d).flatMap fun i => (indices ds).map fun t => i :: t

/-- Modelled from the spec: the runtime's `rankOf()`, the number of dimensions. -/
def NDArray.rankOf (a : NDArray) : Nat := a.shape.length

/-- Modelled from the spec: the runtime's `lengthOf()`, the number of elements. -/
def NDArray.lengthOf (a : NDArray) : Nat := a.shape.prod

/-- Modelled from the spec: the runtime's `isSameShape`, "full equality, rank and
dims". -/
def NDArray.isSameShape (a b : NDArray) : Bool := decide (a.shape = b.shape)

/-- Modelled from the spec: the runtime's `shape::shapeEquals` on shape descriptors,
"rank and every dimension". -/
def shapeEquals (a b : ShapeInfo) : Bool := decide (a.shape = b.shape)

/-- Modelled from the spec: the runtime's `e<T>(0)`, the element at linear index 0,
which is the value of a scalar array. -/
def NDArray.e0 (a : NDArray) : ℚ := a.e (List.replicate a.shape.length 0)

/-- Modelled from the spec: a 0-dimensional array holding one value, what the runtime
builds from a number and what `reduceNumber` returns. -/
def NDArray.scalar (v : ℚ) : NDArray := { shape := [], e := fun _ => v }

/-- Modelled from the spec: `ShapeUtils::areShapesBroadcastable(weights, labels)`,
"for every dimension, Weights' size is 1 or equals Labels' size".  It is only
reached with arrays of equal rank. -/
def areShapesBroadcastable (w l : NDArray) : Bool :=
  (w.shape.zip l.shape).all fun ab => decide (ab.1 = 1 ∨ ab.1 = ab.2)

/-- Modelled from the spec: the runtime's elementwise multiply `a * b`, for two arrays
of the same shape. -/
def NDArray.mul (a b : NDArray) : NDArray :=
  { shape := a.shape, e := fun i => a.e i * b.e i }

/-- Modelled from the spec: the runtime's elementwise subtract-from-scalar `c - a`. -/
def NDArray.rsub (c : ℚ) (a : NDArray) : NDArray :=
  { shape := a.shape, e := fun i => c - a.e i }

/-- Modelled from the spec: `reduceAlongDims(reduce::Sum, {dim}, true)`, the sum
along one dimension, which is kept with size 1.  The runtime is given a
dimension index as the operator computed it; an index outside `[0, rank)` is
outside the runtime's interface and is modelled as a failure (`none`). -/
def NDArray.reduceAlongDims (a : NDArray) (dim : Int) : Option NDArray :=
  if 0 ≤ dim ∧ dim < (a.shape.length : Int) then
    some
      { shape := a.shape.set dim.toNat 1
        e := fun i =>
          ((List.range (a.shape.getD dim.toNat 0)).map fun k => a.e (i.set dim.toNat k)).sum }
  else none

/-- Modelled from the spec: `tileToShape(target)`, "tile along size-1 dimensions
to match": the result has the target dimensions and repeats the source
periodically, so a size-1 dimension of the source is broadcast. -/
def NDArray.tileToShape (a : NDArray) (target : List Nat) : NDArray :=
  { shape := target, e := fun i => a.e (List.zipWith (fun ij dj => ij % dj) i a.shape) }

/-- Modelled from the spec: the runtime's `E *= other`, "elementwise (or
elementwise-by-scalar)": by the value of `other` when it is a scalar, elementwise
otherwise (the operator only reaches this with a scalar or an array of the
shape of `E`). -/
def NDArray.mulAssign (isScalar : NDArray → Bool) (E other : NDArray) : NDArray :=
  if isScalar other then { shape := E.shape, e := fun i => E.e i * other.e0 }
  else { shape := E.shape, e := fun i => E.e i * other.e i }

/-- Modelled from the spec: the runtime's `reduceNumber(reduce::Sum)`, the sum of all
elements. -/
def NDArray.reduceSum (a : NDArray) : ℚ := ((indices a.shape).map a.e).sum

/-- Modelled from the spec: the runtime's `reduceNumber(reduce::CountNonZero)`, the
number of non-zero elements. -/
def NDArray.countNonZero (a : NDArray) : Nat :=
  ((indices a.shape).filter fun i => decide (a.e i ≠ 0)).length

/-- Modelled from the spec: the runtime's `ShapeBuilders::createScalarShapeInfo(dtype)`,
the descriptor of a 0-dimensional array of that data type. -/
def createScalarShapeInfo (dtype : DataType) : ShapeInfo :=
  { shape := [], order := 'c', dtype := dtype }

/-- Modelled from the spec: `ShapeUtils::evalReduceShapeInfo(order, {dim}, shapeInfo,
keepDims = true, ...)`: the descriptor with the reduced dimension collapsed to
size 1, same data type; an index outside `[0, rank)` fails as in
`NDArray.reduceAlongDims`. -/
def evalReduceShapeInfo (order : Char) (dim : Int) (shapeInfo : ShapeInfo) :
    Option ShapeInfo :=
  if 0 ≤ dim ∧ dim < (shapeInfo.shape.length : Int) then
    some { shape := shapeInfo.shape.set dim.toNat 1, order := order, dtype := shapeInfo.dtype }
  else none

/-! ## The operator -/

/-- Outcome of a call: `OK`, one constructor per `REQUIRE_TRUE` of the source (in
source order), and a failure raised inside the runtime. -/
inductive Status
  | OK
  | shapeMismatch
  | weightsRank
  | weightsNotBroadcastable
  | axisOutOfRange
  | invalidReductionMode
  | runtimeFault
  deriving DecidableEq, Repr

/-- The spec's WeightsIncompatible error: either of the two weights checks. -/
def Status.isWeightsIncompatible : Status → Bool
  | Status.weightsRank => true
  | Status.weightsNotBroadcastable => true
  | _ => false

/-- The `switch (reductionMode)` statement of the operator body (source lines 66-104),
as a function of the weighted distances `E`, the weights and their broadcast
copy; a mode outside 0..3 matches no case and leaves the output as it was. -/
def reductionSwitch (isScalar : NDArray → Bool) (weights weightsBroad E output : NDArray)
    (reductionMode : Int) : Status × NDArray :=
  if reductionMode = 0 then (Status.OK, E)
  else if reductionMode = 1 then (Status.OK, NDArray.scalar E.reduceSum)
  else if reductionMode = 2 then
    let sum : ℚ :=
      if isScalar weights then weights.e0 * (E.lengthOf : ℚ) else weightsBroad.reduceSum
    if sum = 0 then (Status.OK, NDArray.scalar 0)
    else (Status.OK, NDArray.scalar (E.reduceSum / sum))
  else if reductionMode = 3 then
    let numOfNonZeroWeights : Nat :=
      if isScalar weights then (if weights.e0 ≠ 0 then E.lengthOf else 0)
      else E.countNonZero
    if numOfNonZeroWeights = 0 then (Status.OK, NDArray.scalar 0)
    else (Status.OK, NDArray.scalar (E.reduceSum / (numOfNonZeroWeights : ℚ)))
  else (Status.OK, output)

/-- The operator body `CUSTOM_OP_IMPL(cosine_distance_loss, 3, 1, false, 0, 2)`.
`isScalar` is the runtime's `NDArray::isScalar`, `output` the pre-allocated
output array, `reductionMode` and `axis` are `INT_ARG(0)` and `INT_ARG(1)`.
Returns the status and the output array after the call. -/
def cosine_distance_loss (isScalar : NDArray → Bool)
    (predictions weights labels output : NDArray) (reductionMode axis : Int) :
    Status × NDArray :=
  let dim : Int := if axis < 0 then axis + (labels.rankOf : Int) else axis
  if !(labels.isSameShape predictions) then (Status.shapeMismatch, output)
  else if !(isScalar weights || decide (weights.rankOf = labels.rankOf)) then
    (Status.weightsRank, output)
  else if !(isScalar weights || areShapesBroadcastable weights labels) then
    (Status.weightsNotBroadcastable, output)
  else if !(decide (dim < (labels.rankOf : Int))) then (Status.axisOutOfRange, output)
  else if !(decide (reductionMode = 0) || decide (reductionMode = 1)
      || decide (reductionMode = 2) || decide (reductionMode = 3)) then
    (Status.invalidReductionMode, output)
  else
    match (predictions.mul labels).reduceAlongDims dim with
    | none => (Status.runtimeFault, output)
    | some r =>
      let E0 := NDArray.rsub 1 r
      let weightsBroad :=
        if !(isScalar weights) && !(weights.isSameShape E0) then weights.tileToShape E0.shape
        else weights
      let E := NDArray.mulAssign isScalar E0 weightsBroad
      reductionSwitch isScalar weights weightsBroad E output reductionMode

/-- The shape function `DECLARE_SHAPE_FN(cosine_distance_loss)`: `predictionsShapeInfo`
is `inputShape->at(0)`, `labelsShapeInfo` is `inputShape->at(2)`. -/
def cosine_distance_loss_shape_fn (predictionsShapeInfo labelsShapeInfo : ShapeInfo)
    (reductionMode axis : Int) : Except Status ShapeInfo :=
  if !(shapeEquals labelsShapeInfo predictionsShapeInfo) then Except.error Status.shapeMismatch
  else
    let dim : Int := if axis < 0 then axis + (labelsShapeInfo.shape.length : Int) else axis
    if reductionMode ≠ 0 then Except.ok (createScalarShapeInfo predictionsShapeInfo.dtype)
    else
      match evalReduceShapeInfo predictionsShapeInfo.order dim predictionsShapeInfo with
      | none => Except.error Status.runtimeFault
      | some outShapeInfo => Except.ok outShapeInfo

/-! ## Vocabulary of the statements -/

/-- The runtime's scalar arrays hold a single element. -/
def ScalarIsSingle (isScalar : NDArray → Bool) : Prop :=
  ∀ a : NDArray, isScalar a = true → a.lengthOf = 1

/-- A concrete reading of `isScalar` for the examples: the 0-dimensional arrays. -/
def isScalar0 (a : NDArray) : Bool := decide (a.shape = [])

/-- The normalized axis: a negative axis counts from the end of the rank. -/
def normalizedAxis (axis : Int) (rank : Nat) : Int :=
  if axis < 0 then axis + (rank : Int) else axis

/-- Shape `ws` is broadcastable to shape `ls`: same rank, and every dimension of
`ws` is 1 or equals the corresponding dimension of `ls`. -/
def Broadcastable (ws ls : List Nat) : Prop :=
  ws.length = ls.length ∧ ∀ ab ∈ ws.zip ls, ab.1 = 1 ∨ ab.1 = ab.2

/-- The sum over `k` along dimension `d` of `predictions * labels` at coordinates `i`. -/
def dotAlong (p l : NDArray) (d : Nat) (i : List Nat) : ℚ :=
  ((List.range (l.shape.getD d 0)).map fun k => p.e (i.set d k) * l.e (i.set d k)).sum

/-- The weight that applies at coordinates `i`: the scalar weight, or the weights
entry at `i` with size-1 dimensions broadcast. -/
def weightAt (isScalar : NDArray → Bool) (w : NDArray) (i : List Nat) : ℚ :=
  if isScalar w then w.e0
  else w.e (List.zipWith (fun ij dj => if dj = 1 then 0 else ij) i w.shape)

/-- A rank-2 array given by its rows. -/
def NDArray.ofRows (rows cols : Nat) (m : List (List ℚ)) : NDArray :=
  { shape := [rows, cols]
    e := fun i => ((m.getD (i.getD 0 0) []).getD (i.getD 1 0) 0) }

/-- The weighted distance at coordinates `i` for the reduction axis `d`:
`w(i) * (1 - sum over the axis of predictions * labels)`. -/
def weightedDistance (isScalar : NDArray → Bool) (p w l : NDArray) (d : Nat)
    (i : List Nat) : ℚ :=
  weightAt isScalar w i * (1 - dotAlong p l d i)

/-- The sum of all weighted distances, `sum(E)`, over the coordinates of `E`. -/
def sumWeightedDistance (isScalar : NDArray → Bool) (p w l : NDArray) (d : Nat) : ℚ :=
  ((indices (l.shape.set d 1)).map (weightedDistance isScalar p w l d)).sum

/-- The mode-2 denominator: the scalar weight times the length of `E`, or the sum of
the weights broadcast over the coordinates of `E`. -/
def sumOfWeights (isScalar : NDArray → Bool) (w : NDArray) (eshape : List Nat) : ℚ :=
  if isScalar w then w.e0 * (eshape.prod : ℚ)
  else ((indices eshape).map (weightAt isScalar w)).sum

/-- The mode-3 divisor as the operator computes it: for scalar weights the length of
`E` (0 for a zero weight), otherwise the number of non-zero weighted distances. -/
def nonZeroDivisor (isScalar : NDArray → Bool) (p w l : NDArray) (d : Nat) : Nat :=
  if isScalar w then (if w.e0 ≠ 0 then (l.shape.set d 1).prod else 0)
  else ((indices (l.shape.set d 1)).filter
    fun i => decide (weightedDistance isScalar p w l d i ≠ 0)).length

/-- The copy of the weights the operator multiplies by (source lines 59-61), for `E`
of shape `eshape`. -/
def broadcastWeights (isScalar : NDArray → Bool) (w : NDArray) (eshape : List Nat) :
    NDArray :=
  if !(isScalar w) && !(decide (w.shape = eshape)) then w.tileToShape eshape else w

/-- The tensor `E` after source line 64, for the normalized axis `d`. -/
def lossTensor (isScalar : NDArray → Bool) (p w l : NDArray) (d : Nat) : NDArray :=
  NDArray.mulAssign isScalar
    (NDArray.rsub 1 { shape := l.shape.set d 1, e := fun i => dotAlong p l d i })
    (broadcastWeights isScalar w (l.shape.set d 1))

/-! ## Example data -/

/-- The spec's concrete scenario: the 2 x 2 identity, as labels and as predictions. -/
def exEye : NDArray := NDArray.ofRows 2 2 [[1, 0], [0, 1]]

/-- A pre-allocated output array. -/
def exOut : NDArray := NDArray.scalar 0

/-- Per-row weights of shape `[2, 1]`. -/
def exRowWeights : NDArray := NDArray.ofRows 2 1 [[2], [3]]

/-- Predictions and labels `[[1, 0], [0, 0]]`: row distances 0 and 1. -/
def exHalf : NDArray := NDArray.ofRows 2 2 [[1, 0], [0, 0]]

/-- Weights of shape `[2, 1]`, both entries 1. -/
def exOnes : NDArray := NDArray.ofRows 2 1 [[1], [1]]

/-- A rank-3 array of shape `[2, 2, 2]`, every element 1. -/
def exRank3 : NDArray := { shape := [2, 2, 2], e := fun _ => 1 }

/-- An array of shape `[2, 3]`, every element 1. -/
def exL23 : NDArray := { shape := [2, 3], e := fun _ => 1 }

/-- An array of shape `[2, 4]`, every element 1. -/
def exP24 : NDArray := { shape := [2, 4], e := fun _ => 1 }

/-- An array of shape `[3]`, every element 1. -/
def exVec3 : NDArray := { shape := [3], e := fun _ => 1 }

/-- Weights of shape `[2, 1]` (the shape of `E` for a 2 x 2 input and axis 1), every
entry 3. -/
def exConst3 : NDArray := { shape := [2, 1], e := fun _ => 3 }

/-- Weights of shape `[2, 1]`, every entry 0. -/
def exZeros : NDArray := { shape := [2, 1], e := fun _ => 0 }

/-! ## Lemmas on coordinates and broadcasting -/

theorem mem_indices {s i : List Nat} :
    i ∈ indices s ↔ List.Forall₂ (fun x d => x < d) i s := by
  induction s generalizing i with
  | nil => simp [indices]
  | cons d ds ih =>
    simp only [indices, List.mem_flatMap, List.mem_range, List.mem_map]
    constructor
    · rintro ⟨x, hx, t, ht, rfl⟩
      exact List.Forall₂.cons hx (ih.mp ht)
    · intro h
      cases h with
      | cons hx ht => exact ⟨_, hx, _, ih.mpr ht, rfl⟩

theorem index_of_single {s i : List Nat} (hp : s.prod = 1)
    (hi : List.Forall₂ (fun x d => x < d) i s) : i = List.replicate s.length 0 := by
  induction hi with
  | nil => rfl
  | @cons x d i s hx _ ih =>
    rw [List.prod_cons] at hp
    have hd : d = 1 := Nat.eq_one_of_mul_eq_one_right hp
    have hs : s.prod = 1 := Nat.eq_one_of_mul_eq_one_left hp
    subst hd
    have hx0 : x = 0 := by omega
    simp [List.replicate_succ, hx0, ih hs]

theorem tile_index {ws ls : List Nat}
    (hw : List.Forall₂ (fun a b => a = 1 ∨ a = b) ws ls) :
    ∀ {es i : List Nat}, List.Forall₂ (fun c b => c = 1 ∨ c = b) es ls →
      List.Forall₂ (fun x d => x < d) i es →
      List.zipWith (fun ij dj => ij % dj) i ws
        = List.zipWith (fun ij dj => if dj = 1 then 0 else ij) i ws := by
  induction hw with
  | nil =>
    intro es i he hi
    cases he
    cases hi
    rfl
  | @cons a b ws ls hab _ ih =>
    intro es i he hi
    cases he with
    | @cons c _ es _ hcb he =>
      cases hi with
      | @cons x _ i _ hx hi =>
        simp only [List.zipWith_cons_cons, ih he hi, List.cons.injEq, and_true]
        by_cases ha : a = 1
        · simp [ha, Nat.mod_one]
        · simp only [ha, if_false]
          rcases hab with h | h
          · exact absurd h ha
          · rcases hcb with h1 | h1
            · subst h1
              have : x = 0 := by omega
              simp [this]
            · subst h1
              subst h
              exact Nat.mod_eq_of_lt hx

theorem same_index {s i : List Nat} (hi : List.Forall₂ (fun x d => x < d) i s) :
    List.zipWith (fun ij dj => if dj = 1 then 0 else ij) i s = i := by
  induction hi with
  | nil => rfl
  | @cons x d i s hx _ ih =>
    simp only [List.zipWith_cons_cons, ih, List.cons.injEq, and_true]
    by_cases hd : d = 1
    · subst hd
      simp only [if_true]
      omega
    · simp [hd]

theorem collapsed_compat (ls : List Nat) (d : Nat) :
    List.Forall₂ (fun c b => c = 1 ∨ c = b) (ls.set d 1) ls := by
  induction ls generalizing d with
  | nil => simp
  | cons b ls ih =>
    cases d with
    | zero =>
      refine List.Forall₂.cons (Or.inl rfl) ?_
      simp
    | succ d => exact List.Forall₂.cons (Or.inr rfl) (ih d)

theorem broadcastable_iff {ws ls : List Nat} :
    Broadcastable ws ls ↔ List.Forall₂ (fun a b => a = 1 ∨ a = b) ws ls := by
  unfold Broadcastable
  rw [List.forall₂_iff_zip]
  constructor
  · rintro ⟨h1, h2⟩
    exact ⟨h1, fun {a b} hab => h2 (a, b) hab⟩
  · rintro ⟨h1, h2⟩
    exact ⟨h1, fun ab hab => h2 hab⟩

theorem areShapesBroadcastable_iff (w l : NDArray) :
    areShapesBroadcastable w l = true ↔ ∀ ab ∈ w.shape.zip l.shape, ab.1 = 1 ∨ ab.1 = ab.2 := by
  simp [areShapesBroadcastable, List.all_eq_true]

/-! ## The operator on valid inputs -/

theorem mulAssign_shape (isScalar : NDArray → Bool) (E other : NDArray) :
    (NDArray.mulAssign isScalar E other).shape = E.shape := by
  unfold NDArray.mulAssign
  split <;> rfl

theorem mulAssign_elem (isScalar : NDArray → Bool) (hS : ScalarIsSingle isScalar)
    (E other : NDArray) (hsh : other.shape = E.shape) {i : List Nat}
    (hi : i ∈ indices E.shape) :
    (NDArray.mulAssign isScalar E other).e i = E.e i * other.e i := by
  unfold NDArray.mulAssign
  split
  · next h =>
    have hone : other.shape.prod = 1 := hS other h
    have hidx : i = List.replicate other.shape.length 0 :=
      index_of_single hone (hsh ▸ mem_indices.mp hi)
    simp only [NDArray.e0]
    rw [← hidx]
  · rfl

/-- On inputs that pass every check with a normalized axis `d` inside the rank, the
operator reaches the switch with the tensor `E` of source line 64. -/
theorem loss_reaches_switch (isScalar : NDArray → Bool)
    (p w l out : NDArray) (m axis : Int) (d : Nat)
    (hshape : l.shape = p.shape)
    (hw : isScalar w = true ∨ Broadcastable w.shape l.shape)
    (hd : normalizedAxis axis l.rankOf = (d : Int)) (hdr : d < l.rankOf)
    (hm : m = 0 ∨ m = 1 ∨ m = 2 ∨ m = 3) :
    cosine_distance_loss isScalar p w l out m axis
      = reductionSwitch isScalar w (broadcastWeights isScalar w (l.shape.set d 1))
          (lossTensor isScalar p w l d) out m := by
  have hdim : (if axis < 0 then axis + (l.rankOf : Int) else axis) = (d : Int) := hd
  have hrank : isScalar w = true ∨ w.rankOf = l.rankOf := by
    rcases hw with h | h
    · exact Or.inl h
    · exact Or.inr h.1
  have hbc : isScalar w = true ∨ areShapesBroadcastable w l = true := by
    rcases hw with h | h
    · exact Or.inl h
    · exact Or.inr ((areShapesBroadcastable_iff w l).mpr h.2)
  have hred : (p.mul l).reduceAlongDims (d : Int)
      = some { shape := l.shape.set d 1, e := fun i => dotAlong p l d i } := by
    have hlen : (d : Int) < ((p.mul l).shape.length : Int) := by
      show (d : Int) < (p.shape.length : Int)
      rw [← hshape]
      exact_mod_cast hdr
    unfold NDArray.reduceAlongDims
    rw [if_pos ⟨Int.natCast_nonneg d, hlen⟩]
    simp only [Int.toNat_ofNat, NDArray.mul, ← hshape, dotAlong]
  unfold cosine_distance_loss
  simp only [hdim]
  rw [if_neg (by simp [NDArray.isSameShape, hshape]),
    if_neg (by rcases hrank with h | h <;> simp [h]),
    if_neg (by rcases hbc with h | h <;> simp [h]),
    if_neg (by simpa [NDArray.rankOf] using hdr),
    if_neg (by rcases hm with h | h | h | h <;> simp [h]), hred]
  rfl

theorem lossTensor_shape (isScalar : NDArray → Bool) (p w l : NDArray) (d : Nat) :
    (lossTensor isScalar p w l d).shape = l.shape.set d 1 := by
  unfold lossTensor
  rw [mulAssign_shape]
  rfl

theorem broadcastWeights_shape (isScalar : NDArray → Bool) (w : NDArray)
    (eshape : List Nat) (hs : isScalar w = false) :
    (broadcastWeights isScalar w eshape).shape = eshape := by
  unfold broadcastWeights
  by_cases hsame : w.shape = eshape
  · simp [hs, hsame]
  · simp [hs, hsame, NDArray.tileToShape]

theorem broadcastWeights_elem (isScalar : NDArray → Bool) (w l : NDArray) (d : Nat)
    (hs : isScalar w = false) (hB : Broadcastable w.shape l.shape)
    {i : List Nat} (hi : i ∈ indices (l.shape.set d 1)) :
    (broadcastWeights isScalar w (l.shape.set d 1)).e i = weightAt isScalar w i := by
  unfold broadcastWeights weightAt
  by_cases hsame : w.shape = l.shape.set d 1
  · simp only [hs, hsame, decide_True, Bool.not_true, Bool.and_false, Bool.false_eq_true,
      if_false]
    rw [← hsame, same_index (hsame ▸ mem_indices.mp hi)]
  · simp only [hs, hsame, decide_False, Bool.not_false, Bool.and_true, if_true,
      Bool.false_eq_true, if_false, NDArray.tileToShape]
    rw [tile_index (broadcastable_iff.mp hB) (collapsed_compat l.shape d) (mem_indices.mp hi)]

theorem lossTensor_elem (isScalar : NDArray → Bool) (hS : ScalarIsSingle isScalar)
    (p w l : NDArray) (d : Nat)
    (hw : isScalar w = true ∨ Broadcastable w.shape l.shape)
    {i : List Nat} (hi : i ∈ indices (l.shape.set d 1)) :
    (lossTensor isScalar p w l d).e i = weightedDistance isScalar p w l d i := by
  unfold lossTensor weightedDistance
  by_cases hs : isScalar w = true
  · simp [hs, broadcastWeights, NDArray.mulAssign, weightAt, NDArray.rsub, mul_comm]
  · have hs0 : isScalar w = false := by simpa using hs
    rw [mulAssign_elem isScalar hS
      (NDArray.rsub 1 { shape := l.shape.set d 1, e := fun i => dotAlong p l d i })
      (broadcastWeights isScalar w (l.shape.set d 1))
      (broadcastWeights_shape isScalar w _ hs0) hi,
      broadcastWeights_elem isScalar w l d hs0 (hw.resolve_left hs) hi, mul_comm]
    rfl

theorem reduceSum_congr (a : NDArray) (f : List Nat → ℚ)
    (h : ∀ i ∈ indices a.shape, a.e i = f i) :
    a.reduceSum = ((indices a.shape).map f).sum := by
  unfold NDArray.reduceSum
  rw [List.map_congr_left h]

theorem compat_trans {ws es : List Nat}
    (h1 : List.Forall₂ (fun a c => a = 1 ∨ a = c) ws es) :
    ∀ {ls : List Nat}, List.Forall₂ (fun c b => c = 1 ∨ c = b) es ls →
      List.Forall₂ (fun a b => a = 1 ∨ a = b) ws ls := by
  induction h1 with
  | nil =>
    intro ls h2
    cases h2
    exact List.Forall₂.nil
  | @cons a c ws es hac _ ih =>
    intro ls h2
    cases h2 with
    | @cons _ b _ ls hcb h2 =>
      refine List.Forall₂.cons ?_ (ih h2)
      rcases hac with h | h
      · exact Or.inl h
      · rcases hcb with h3 | h3
        · exact Or.inl (h.trans h3)
        · exact Or.inr (h.trans h3)

theorem broadcastable_of_collapsed {ws ls : List Nat} {d : Nat}
    (h : Broadcastable ws (ls.set d 1)) : Broadcastable ws ls :=
  broadcastable_iff.mpr (compat_trans (broadcastable_iff.mp h) (collapsed_compat ls d))

theorem isScalar0_single : ScalarIsSingle isScalar0 := by
  intro a h
  have hs : a.shape = [] := by simpa [isScalar0] using h
  simp [NDArray.lengthOf, hs]

theorem lossTensor_sum (isScalar : NDArray → Bool) (hS : ScalarIsSingle isScalar)
    (p w l : NDArray) (d : Nat)
    (hw : isScalar w = true ∨ Broadcastable w.shape l.shape) :
    (lossTensor isScalar p w l d).reduceSum = sumWeightedDistance isScalar p w l d := by
  rw [reduceSum_congr _ (weightedDistance isScalar p w l d)
    (fun i hi => lossTensor_elem isScalar hS p w l d hw (lossTensor_shape isScalar p w l d ▸ hi)),
    lossTensor_shape]
  rfl

theorem lossTensor_count (isScalar : NDArray → Bool) (hS : ScalarIsSingle isScalar)
    (p w l : NDArray) (d : Nat)
    (hw : isScalar w = true ∨ Broadcastable w.shape l.shape) :
    (lossTensor isScalar p w l d).countNonZero
      = ((indices (l.shape.set d 1)).filter
          fun i => decide (weightedDistance isScalar p w l d i ≠ 0)).length := by
  unfold NDArray.countNonZero
  rw [lossTensor_shape]
  congr 1
  apply List.filter_congr
  intro i hi
  rw [lossTensor_elem isScalar hS p w l d hw hi]

theorem broadcastWeights_sum (isScalar : NDArray → Bool) (w l : NDArray) (d : Nat)
    (hs : isScalar w = false) (hB : Broadcastable w.shape l.shape) :
    (broadcastWeights isScalar w (l.shape.set d 1)).reduceSum
      = ((indices (l.shape.set d 1)).map (weightAt isScalar w)).sum := by
  rw [reduceSum_congr _ (weightAt isScalar w)
    (fun i hi => broadcastWeights_elem isScalar w l d hs hB
      (by rw [broadcastWeights_shape isScalar w _ hs] at hi; exact hi)),
    broadcastWeights_shape isScalar w _ hs]

theorem mode1_eval (isScalar : NDArray → Bool) (p w l out : NDArray) (axis : Int) (d : Nat)
    (hshape : p.shape = l.shape)
    (hw : isScalar w = true ∨ Broadcastable w.shape l.shape)
    (hd : normalizedAxis axis l.rankOf = (d : Int)) (hdr : d < l.rankOf) :
    cosine_distance_loss isScalar p w l out 1 axis
      = (Status.OK, NDArray.scalar (lossTensor isScalar p w l d).reduceSum) := by
  rw [loss_reaches_switch isScalar p w l out 1 axis d hshape.symm hw hd hdr (Or.inr (Or.inl rfl))]
  simp [reductionSwitch]

theorem mode0_eval (isScalar : NDArray → Bool) (p w l out : NDArray) (axis : Int) (d : Nat)
    (hshape : p.shape = l.shape)
    (hw : isScalar w = true ∨ Broadcastable w.shape l.shape)
    (hd : normalizedAxis axis l.rankOf = (d : Int)) (hdr : d < l.rankOf) :
    cosine_distance_loss isScalar p w l out 0 axis
      = (Status.OK, lossTensor isScalar p w l d) := by
  rw [loss_reaches_switch isScalar p w l out 0 axis d hshape.symm hw hd hdr (Or.inl rfl)]
  simp [reductionSwitch]

theorem mode2_eval (isScalar : NDArray → Bool) (hS : ScalarIsSingle isScalar)
    (p w l out : NDArray) (axis : Int) (d : Nat)
    (hshape : p.shape = l.shape)
    (hw : isScalar w = true ∨ Broadcastable w.shape l.shape)
    (hd : normalizedAxis axis l.rankOf = (d : Int)) (hdr : d < l.rankOf) :
    cosine_distance_loss isScalar p w l out 2 axis
      = (Status.OK, NDArray.scalar
          (if sumOfWeights isScalar w (l.shape.set d 1) = 0 then 0
           else sumWeightedDistance isScalar p w l d
             / sumOfWeights isScalar w (l.shape.set d 1))) := by
  rw [loss_reaches_switch isScalar p w l out 2 axis d hshape.symm hw hd hdr
    (Or.inr (Or.inr (Or.inl rfl)))]
  have hden : (if isScalar w = true
        then w.e0 * ((lossTensor isScalar p w l d).lengthOf : ℚ)
        else (broadcastWeights isScalar w (l.shape.set d 1)).reduceSum)
      = sumOfWeights isScalar w (l.shape.set d 1) := by
    unfold sumOfWeights
    by_cases hs : isScalar w = true
    · simp [hs, NDArray.lengthOf, lossTensor_shape]
    · have hs0 : isScalar w = false := by simpa using hs
      simp only [hs0, Bool.false_eq_true, if_false]
      exact broadcastWeights_sum isScalar w l d hs0 (hw.resolve_left hs)
  unfold reductionSwitch
  simp only [show (2 : Int) ≠ 0 by decide, show (2 : Int) ≠ 1 by decide, if_false, if_true,
    hden, lossTensor_sum isScalar hS p w l d hw]
  split <;> rfl

theorem mode3_eval (isScalar : NDArray → Bool) (hS : ScalarIsSingle isScalar)
    (p w l out : NDArray) (axis : Int) (d : Nat)
    (hshape : p.shape = l.shape)
    (hw : isScalar w = true ∨ Broadcastable w.shape l.shape)
    (hd : normalizedAxis axis l.rankOf = (d : Int)) (hdr : d < l.rankOf) :
    cosine_distance_loss isScalar p w l out 3 axis
      = (Status.OK, NDArray.scalar
          (if nonZeroDivisor isScalar p w l d = 0 then 0
           else sumWeightedDistance isScalar p w l d
             / (nonZeroDivisor isScalar p w l d : ℚ))) := by
  rw [loss_reaches_switch isScalar p w l out 3 axis d hshape.symm hw hd hdr
    (Or.inr (Or.inr (Or.inr rfl)))]
  have hden : (if isScalar w = true
        then (if w.e0 ≠ 0 then (lossTensor isScalar p w l d).lengthOf else 0)
        else (lossTensor isScalar p w l d).countNonZero)
      = nonZeroDivisor isScalar p w l d := by
    unfold nonZeroDivisor
    by_cases hs : isScalar w = true
    · simp [hs, NDArray.lengthOf, lossTensor_shape]
    · have hs0 : isScalar w = false := by simpa using hs
      simp only [hs0, Bool.false_eq_true, if_false]
      exact lossTensor_count isScalar hS p w l d hw
  unfold reductionSwitch
  simp only [show (3 : Int) ≠ 0 by decide, show (3 : Int) ≠ 1 by decide,
    show (3 : Int) ≠ 2 by decide, if_false, if_true,
    hden, lossTensor_sum isScalar hS p w l d hw]
  split <;> rfl

theorem ex_sums :
    sumWeightedDistance isScalar0 exHalf exRowWeights exHalf 1 = 3
    ∧ sumOfWeights isScalar0 exRowWeights [2, 1] = 5 := by
  have hI : indices [2, 1] = [[0, 0], [1, 0]] := by decide
  have hR : List.range 2 = [0, 1] := by decide
  constructor
  · simp [sumWeightedDistance, weightedDistance, weightAt, dotAlong, exHalf,
      exRowWeights, NDArray.ofRows, isScalar0, hI, hR]
  · simp [sumOfWeights, weightAt, exRowWeights, NDArray.ofRows, isScalar0, hI]
    norm_num

theorem ex_mode3 :
    sumWeightedDistance isScalar0 exHalf exOnes exHalf 1 = 1
    ∧ nonZeroDivisor isScalar0 exHalf exOnes exHalf 1 = 1
    ∧ exOnes.countNonZero = 2 := by
  have hI : indices [2, 1] = [[0, 0], [1, 0]] := by decide
  have hR : List.range 2 = [0, 1] := by decide
  refine ⟨?_, ?_, ?_⟩
  · simp [sumWeightedDistance, weightedDistance, weightAt, dotAlong, exHalf,
      exOnes, NDArray.ofRows, isScalar0, hI, hR]
  · simp [nonZeroDivisor, weightedDistance, weightAt, dotAlong, exHalf,
      exOnes, NDArray.ofRows, isScalar0, hI, hR, List.filter_cons]
  · simp [NDArray.countNonZero, exOnes, NDArray.ofRows, hI, List.filter_cons]

/-! ## The checks, in source order -/

theorem reductionSwitch_status (isScalar : NDArray → Bool) (w wb E out : NDArray) (m : Int) :
    (reductionSwitch isScalar w wb E out m).1 = Status.OK := by
  unfold reductionSwitch
  simp only []
  split_ifs <;> rfl

theorem reduceAlongDims_eq_none (a : NDArray) (dim : Int) :
    a.reduceAlongDims dim = none ↔ ¬ (0 ≤ dim ∧ dim < (a.shape.length : Int)) := by
  unfold NDArray.reduceAlongDims
  split_ifs with h
  · simp [h]
  · simp [h]

/-- The status of a call, as the decision list of the five `REQUIRE_TRUE` checks
followed by the reduction along the normalized axis. -/
theorem loss_status (isScalar : NDArray → Bool) (p w l out : NDArray) (m axis : Int) :
    (cosine_distance_loss isScalar p w l out m axis).1 =
      if l.shape ≠ p.shape then Status.shapeMismatch
      else if isScalar w = false ∧ w.rankOf ≠ l.rankOf then Status.weightsRank
      else if isScalar w = false ∧ areShapesBroadcastable w l = false then
        Status.weightsNotBroadcastable
      else if ¬ normalizedAxis axis l.rankOf < (l.rankOf : Int) then Status.axisOutOfRange
      else if ¬ (m = 0 ∨ m = 1 ∨ m = 2 ∨ m = 3) then Status.invalidReductionMode
      else if normalizedAxis axis l.rankOf < 0 then Status.runtimeFault
      else Status.OK := by
  unfold cosine_distance_loss
  have hn : (if axis < 0 then axis + (l.rankOf : Int) else axis)
      = normalizedAxis axis l.rankOf := rfl
  simp only [hn]
  generalize normalizedAxis axis l.rankOf = dim
  by_cases h1 : l.shape = p.shape
  swap
  · have c1 : (!(l.isSameShape p)) = true := by simp [NDArray.isSameShape, h1]
    rw [if_pos c1, if_pos h1]
  have c1 : ¬ (!(l.isSameShape p)) = true := by simp [NDArray.isSameShape, h1]
  rw [if_neg c1, if_neg (not_not.mpr h1)]
  by_cases h2 : isScalar w = false ∧ w.rankOf ≠ l.rankOf
  · have c2 : (!(isScalar w || decide (w.rankOf = l.rankOf))) = true := by
      simp [h2.1, h2.2]
    rw [if_pos c2, if_pos h2]
  have c2 : ¬ (!(isScalar w || decide (w.rankOf = l.rankOf))) = true := by
    rw [not_and_or] at h2
    rcases h2 with h | h <;> simp_all
  rw [if_neg c2, if_neg h2]
  by_cases h3 : isScalar w = false ∧ areShapesBroadcastable w l = false
  · have c3 : (!(isScalar w || areShapesBroadcastable w l)) = true := by
      simp [h3.1, h3.2]
    rw [if_pos c3, if_pos h3]
  have c3 : ¬ (!(isScalar w || areShapesBroadcastable w l)) = true := by
    rw [not_and_or] at h3
    rcases h3 with h | h <;> simp_all
  rw [if_neg c3, if_neg h3]
  by_cases h4 : dim < (l.rankOf : Int)
  swap
  · have c4 : (!(decide (dim < (l.rankOf : Int)))) = true := by simp [h4]
    rw [if_pos c4, if_pos h4]
  have c4 : ¬ (!(decide (dim < (l.rankOf : Int)))) = true := by simp [h4]
  rw [if_neg c4, if_neg (not_not.mpr h4)]
  by_cases h5 : m = 0 ∨ m = 1 ∨ m = 2 ∨ m = 3
  swap
  · have c5 : (!(decide (m = 0) || decide (m = 1) || decide (m = 2) || decide (m = 3)))
        = true := by
      simpa [not_or, and_assoc] using h5
    rw [if_pos c5, if_pos h5]
  have c5 : ¬ (!(decide (m = 0) || decide (m = 1) || decide (m = 2) || decide (m = 3)))
      = true := by
    rcases h5 with h | h | h | h <;> simp [h]
  rw [if_neg c5, if_neg (not_not.mpr h5)]
  have hlen : ((p.mul l).shape.length : Int) = (l.rankOf : Int) := by
    show ((p.shape.length : Nat) : Int) = ((l.shape.length : Nat) : Int)
    rw [h1]
  cases hred : (p.mul l).reduceAlongDims dim with
  | none =>
    have hneg : dim < 0 := by
      have := (reduceAlongDims_eq_none _ _).mp hred
      rw [hlen] at this
      omega
    rw [if_pos hneg]
  | some r =>
    have hnn : ¬ dim < 0 := by
      intro hneg
      have : (p.mul l).reduceAlongDims dim = none :=
        (reduceAlongDims_eq_none _ _).mpr (by omega)
      rw [this] at hred
      exact absurd hred (by simp)
    rw [if_neg hnn]
    exact reductionSwitch_status _ _ _ _ _ _

/-- A failed call leaves the output array as it was. -/
theorem loss_output_of_failure (isScalar : NDArray → Bool) (p w l out : NDArray)
    (m axis : Int)
    (h : (cosine_distance_loss isScalar p w l out m axis).1 ≠ Status.OK) :
    (cosine_distance_loss isScalar p w l out m axis).2 = out := by
  unfold cosine_distance_loss at h ⊢
  have hn : (if axis < 0 then axis + (l.rankOf : Int) else axis)
      = normalizedAxis axis l.rankOf := rfl
  simp only [hn] at h ⊢
  generalize normalizedAxis axis l.rankOf = dim at h ⊢
  split_ifs at h ⊢ <;> try rfl
  revert h
  cases (p.mul l).reduceAlongDims dim with
  | none =>
    intro _
    rfl
  | some r =>
    intro h
    exact absurd (reductionSwitch_status _ _ _ _ _ _) h

theorem shape_fn_eval (ps ls : ShapeInfo) (m axis : Int) (d : Nat)
    (hsame : ls.shape = ps.shape)
    (hd : normalizedAxis axis ls.shape.length = (d : Int)) (hdr : d < ls.shape.length) :
    cosine_distance_loss_shape_fn ps ls m axis
      = Except.ok (if m ≠ 0 then createScalarShapeInfo ps.dtype
          else { shape := ps.shape.set d 1, order := ps.order, dtype := ps.dtype }) := by
  have hdim : (if axis < 0 then axis + (ls.shape.length : Int) else axis) = (d : Int) := hd
  unfold cosine_distance_loss_shape_fn
  rw [if_neg (by simp [shapeEquals, hsame])]
  simp only [hdim]
  by_cases hm : m = 0
  · have hlen : (d : Int) < (ps.shape.length : Int) := by
      rw [← hsame]
      exact_mod_cast hdr
    simp [hm, evalReduceShapeInfo, hlen]
  · simp [hm]

theorem reductionSwitch_shape (isScalar : NDArray → Bool) (w wb E out : NDArray) (m : Int)
    (hm : m = 0 ∨ m = 1 ∨ m = 2 ∨ m = 3) :
    (reductionSwitch isScalar w wb E out m).2.shape = if m = 0 then E.shape else [] := by
  unfold reductionSwitch
  rcases hm with h | h | h | h <;> subst h
  · simp
  · simp [NDArray.scalar]
  · simp only [show (2 : Int) ≠ 0 by decide, show (2 : Int) ≠ 1 by decide, if_false, if_true]
    split_ifs <;> rfl
  · simp only [show (3 : Int) ≠ 0 by decide, show (3 : Int) ≠ 1 by decide,
      show (3 : Int) ≠ 2 by decide, if_false, if_true]
    split_ifs <;> rfl

theorem shape_fn_mismatch_iff (ps ls : ShapeInfo) (m axis : Int) :
    cosine_distance_loss_shape_fn ps ls m axis = Except.error Status.shapeMismatch
      ↔ ls.shape ≠ ps.shape := by
  unfold cosine_distance_loss_shape_fn
  by_cases h : ls.shape = ps.shape
  · have c : ¬ (!(shapeEquals ls ps)) = true := by simp [shapeEquals, h]
    rw [if_neg c]
    refine iff_of_false ?_ (not_not.mpr h)
    simp only []
    generalize (if axis < 0 then axis + (ls.shape.length : Int) else axis) = dim
    by_cases hm : m ≠ 0
    · rw [if_pos hm]
      intro hc
      cases hc
    · rw [if_neg hm]
      cases evalReduceShapeInfo ps.order dim ps with
      | none =>
        intro hc
        cases hc
      | some si =>
        intro hc
        cases hc
  · have c : (!(shapeEquals ls ps)) = true := by simp [shapeEquals, h]
    rw [if_pos c]
    simp [h]

theorem not_broadcastable_iff (w l : NDArray) :
    areShapesBroadcastable w l = false
      ↔ ∃ ab ∈ w.shape.zip l.shape, ab.1 ≠ 1 ∧ ab.1 ≠ ab.2 := by
  rw [← Bool.not_eq_true, areShapesBroadcastable_iff]
  push_neg
  rfl

theorem checks_pass_of_compatible (isScalar : NDArray → Bool) (w l : NDArray)
    (hw : isScalar w = true ∨ Broadcastable w.shape l.shape) :
    ¬ (isScalar w = false ∧ w.rankOf ≠ l.rankOf)
    ∧ ¬ (isScalar w = false ∧ areShapesBroadcastable w l = false) := by
  rcases hw with h | h
  · simp [h]
  · refine ⟨fun hc => hc.2 h.1, fun hc => ?_⟩
    have := (areShapesBroadcastable_iff w l).mpr h.2
    rw [this] at hc
    exact absurd hc.2 (by simp)

/-! ## The claims -/

/-- C1 (mode 0 identity). For predictions and labels of equal shape, an axis whose
normalized value `d` lies in `[0, rank labels)`, weights that are a scalar or
broadcastable to the shape of `E`, and `reductionMode = 0`, the operator
succeeds, its output has the shape of labels with dimension `d` collapsed to 1,
and the element at every coordinate `i` is `w(i) * (1 - sum over the axis of
predictions * labels at i)`, with `w(i)` the scalar weight or the weights entry
at `i` with size-1 dimensions broadcast.  `isScalar` is any runtime predicate
whose scalar arrays hold a single element. -/
theorem mode0_identity (isScalar : NDArray → Bool) (hS : ScalarIsSingle isScalar)
    (p w l out : NDArray) (axis : Int) (d : Nat)
    (hshape : p.shape = l.shape)
    (hd : normalizedAxis axis l.rankOf = (d : Int)) (hdr : d < l.rankOf)
    (hw : isScalar w = true ∨ Broadcastable w.shape (l.shape.set d 1)) :
    ∃ E : NDArray,
      cosine_distance_loss isScalar p w l out 0 axis = (Status.OK, E)
      ∧ E.shape = l.shape.set d 1
      ∧ ∀ i ∈ indices E.shape, E.e i = weightAt isScalar w i * (1 - dotAlong p l d i) := by
  have hw2 : isScalar w = true ∨ Broadcastable w.shape l.shape :=
    hw.imp_right broadcastable_of_collapsed
  refine ⟨lossTensor isScalar p w l d, ?_, lossTensor_shape isScalar p w l d, ?_⟩
  · rw [loss_reaches_switch isScalar p w l out 0 axis d hshape.symm hw2 hd hdr (Or.inl rfl)]
    simp [reductionSwitch]
  · intro i hi
    rw [lossTensor_shape] at hi
    exact lossTensor_elem isScalar hS p w l d hw2 hi

/-- The mode-0 identity at the 2 x 2 identity with per-row weights and axis -1. -/
theorem mode0_identity_witness :
    ∃ E : NDArray,
      cosine_distance_loss isScalar0 exEye exRowWeights exEye exOut 0 (-1) = (Status.OK, E)
      ∧ E.shape = [2, 1]
      ∧ ∀ i ∈ indices E.shape,
          E.e i = weightAt isScalar0 exRowWeights i * (1 - dotAlong exEye exEye 1 i) :=
  mode0_identity isScalar0 isScalar0_single exEye exRowWeights exEye exOut (-1) 1 rfl
    (by decide) (by decide) (Or.inr ⟨rfl, by decide⟩)

/-- C2 (mode 2, weighted mean). On every input that passes validation, with
`reductionMode = 2`, the output is the scalar `sum(E) / D`, where `D` is the scalar
weight times the length of `E`, or the sum of the weights broadcast to the shape
of `E`; when `D` is exactly 0 the output is 0.  Validation is: equal shapes,
weights a scalar or broadcastable to labels, normalized axis `d` in
`[0, rank labels)`. -/
theorem mode2_weighted_mean (isScalar : NDArray → Bool) (hS : ScalarIsSingle isScalar)
    (p w l out : NDArray) (axis : Int) (d : Nat)
    (hshape : p.shape = l.shape)
    (hw : isScalar w = true ∨ Broadcastable w.shape l.shape)
    (hd : normalizedAxis axis l.rankOf = (d : Int)) (hdr : d < l.rankOf) :
    cosine_distance_loss isScalar p w l out 2 axis
      = (Status.OK, NDArray.scalar
          (if sumOfWeights isScalar w (l.shape.set d 1) = 0 then 0
           else sumWeightedDistance isScalar p w l d
             / sumOfWeights isScalar w (l.shape.set d 1))) :=
  mode2_eval isScalar hS p w l out axis d hshape hw hd hdr

/-- The weighted mean at predictions = labels = `[[1, 0], [0, 0]]`, weights `[[2], [3]]`, axis 1:
`sum(E) = 3`, `D = 5`, output 3/5. -/
theorem mode2_weighted_mean_witness :
    cosine_distance_loss isScalar0 exHalf exRowWeights exHalf exOut 2 1
      = (Status.OK, NDArray.scalar (3 / 5)) := by
  have h : cosine_distance_loss isScalar0 exHalf exRowWeights exHalf exOut 2 1
      = (Status.OK, NDArray.scalar
          (if sumOfWeights isScalar0 exRowWeights [2, 1] = 0 then 0
           else sumWeightedDistance isScalar0 exHalf exRowWeights exHalf 1
             / sumOfWeights isScalar0 exRowWeights [2, 1])) :=
    mode2_weighted_mean isScalar0 isScalar0_single exHalf exRowWeights exHalf exOut 1 1 rfl
      (Or.inr ⟨rfl, by decide⟩) (by decide) (by decide)
  rw [ex_sums.1, ex_sums.2] at h
  rw [h]
  norm_num

/-- C3 (mode 3 with tensor weights), evaluated at a failing input. Predictions =
labels = `[[1, 0], [0, 0]]`, weights = `[[1], [1]]`, axis 1: both weights are
non-zero (k = 2) and `sum(E) = 1`, so the claim gives 1/2, while the operator
divides by the number of non-zero entries of `E` (one) and returns 1. -/
theorem mode3_divides_by_nonzero_distances :
    cosine_distance_loss isScalar0 exHalf exOnes exHalf exOut 3 1
      = (Status.OK, NDArray.scalar 1)
    ∧ isScalar0 exOnes = false
    ∧ exOnes.countNonZero = 2
    ∧ sumWeightedDistance isScalar0 exHalf exOnes exHalf 1 / 2 = 1 / 2 := by
  refine ⟨?_, by decide, ex_mode3.2.2, by rw [ex_mode3.1]⟩
  rw [mode3_eval isScalar0 isScalar0_single exHalf exOnes exHalf exOut 1 1 rfl
    (Or.inr ⟨rfl, by decide⟩) (by decide) (by decide), ex_mode3.1, ex_mode3.2.1]
  norm_num

/-- C4 (mode 1 additivity). On every input that passes validation, the scalar output
for `reductionMode = 1` is the sum of all elements of the tensor output `E` for
`reductionMode = 0` on the same inputs. -/
theorem mode1_additivity (isScalar : NDArray → Bool)
    (p w l out : NDArray) (axis : Int) (d : Nat)
    (hshape : p.shape = l.shape)
    (hw : isScalar w = true ∨ Broadcastable w.shape l.shape)
    (hd : normalizedAxis axis l.rankOf = (d : Int)) (hdr : d < l.rankOf) :
    ∃ E : NDArray,
      cosine_distance_loss isScalar p w l out 0 axis = (Status.OK, E)
      ∧ cosine_distance_loss isScalar p w l out 1 axis
          = (Status.OK, NDArray.scalar ((indices E.shape).map E.e).sum) :=
  ⟨lossTensor isScalar p w l d, mode0_eval isScalar p w l out axis d hshape hw hd hdr,
    mode1_eval isScalar p w l out axis d hshape hw hd hdr⟩

/-- Additivity at predictions = labels = `[[1, 0], [0, 0]]`, weights `[[2], [3]]`, axis -1. -/
theorem mode1_additivity_witness :
    ∃ E : NDArray,
      cosine_distance_loss isScalar0 exHalf exRowWeights exHalf exOut 0 (-1) = (Status.OK, E)
      ∧ cosine_distance_loss isScalar0 exHalf exRowWeights exHalf exOut 1 (-1)
          = (Status.OK, NDArray.scalar ((indices E.shape).map E.e).sum) :=
  mode1_additivity isScalar0 exHalf exRowWeights exHalf exOut (-1) 1 rfl
    (Or.inr ⟨rfl, by decide⟩) (by decide) (by decide)

/-- C5 (shape agreement). On every input that passes validation, the shape function
returns the shape of the value the operator writes: a 0-dimensional scalar for
modes 1, 2, 3 and the shape of labels with the normalized axis collapsed to 1
for mode 0; both normalize a negative axis with the rank of labels. -/
theorem shape_agreement (isScalar : NDArray → Bool) (p w l out : NDArray)
    (ps ls : ShapeInfo) (m axis : Int) (d : Nat)
    (hps : ps.shape = p.shape) (hls : ls.shape = l.shape)
    (hshape : p.shape = l.shape)
    (hw : isScalar w = true ∨ Broadcastable w.shape l.shape)
    (hd : normalizedAxis axis l.rankOf = (d : Int)) (hdr : d < l.rankOf)
    (hm : m = 0 ∨ m = 1 ∨ m = 2 ∨ m = 3) :
    ∃ (o : NDArray) (si : ShapeInfo),
      cosine_distance_loss isScalar p w l out m axis = (Status.OK, o)
      ∧ cosine_distance_loss_shape_fn ps ls m axis = Except.ok si
      ∧ si.shape = o.shape
      ∧ o.shape = if m = 0 then l.shape.set d 1 else [] := by
  have hrun := loss_reaches_switch isScalar p w l out m axis d hshape.symm hw hd hdr hm
  have hsh := reductionSwitch_shape isScalar w (broadcastWeights isScalar w (l.shape.set d 1))
    (lossTensor isScalar p w l d) out m hm
  rw [lossTensor_shape] at hsh
  have hfn := shape_fn_eval ps ls m axis d (hls.trans (hshape.symm.trans hps.symm))
    (by rw [hls]; exact hd) (by rw [hls]; exact hdr)
  refine ⟨_, _, ?_, hfn, ?_, hrun ▸ hsh⟩
  · rw [hrun]
    exact Prod.ext (reductionSwitch_status _ _ _ _ _ _) rfl
  · rw [hrun, hsh]
    by_cases h0 : m = 0
    · simp [h0, hps, hshape]
    · simp [h0, createScalarShapeInfo]

/-- Shape agreement at the 2 x 2 identity, mode 0, axis -1: both give the shape `[2, 1]`. -/
theorem shape_agreement_witness :
    ∃ (o : NDArray) (si : ShapeInfo),
      cosine_distance_loss isScalar0 exEye exRowWeights exEye exOut 0 (-1) = (Status.OK, o)
      ∧ cosine_distance_loss_shape_fn ⟨[2, 2], 'c', DataType.FLOAT32⟩
          ⟨[2, 2], 'c', DataType.FLOAT32⟩ 0 (-1) = Except.ok si
      ∧ si.shape = o.shape
      ∧ o.shape = [2, 1] :=
  shape_agreement isScalar0 exEye exRowWeights exEye exOut ⟨[2, 2], 'c', DataType.FLOAT32⟩
    ⟨[2, 2], 'c', DataType.FLOAT32⟩ 0 (-1) 1 rfl rfl rfl (Or.inr ⟨rfl, by decide⟩)
    (by decide) (by decide) (Or.inl rfl)

/-- C6 (shape-inference rule). For equal labels and predictions shapes, the shape
function returns a 0-dimensional scalar descriptor with the data type of
predictions whenever `reductionMode != 0`; for `reductionMode = 0` and a
normalized axis `d` in `[0, rank)` it returns a descriptor of the same rank, data
type and ordering as predictions, whose dimension `d` is 1 and whose other
dimensions are those of predictions, in the same positions. -/
theorem shape_inference_rule (ps ls : ShapeInfo) (m axis : Int)
    (hsame : ls.shape = ps.shape) :
    (m ≠ 0 → ∃ si : ShapeInfo,
        cosine_distance_loss_shape_fn ps ls m axis = Except.ok si
        ∧ si.shape = [] ∧ si.dtype = ps.dtype)
    ∧ (m = 0 → ∀ d : Nat, normalizedAxis axis ps.shape.length = (d : Int) →
        d < ps.shape.length →
        ∃ si : ShapeInfo,
          cosine_distance_loss_shape_fn ps ls m axis = Except.ok si
          ∧ si.shape.length = ps.shape.length
          ∧ si.dtype = ps.dtype
          ∧ si.order = ps.order
          ∧ si.shape[d]? = some 1
          ∧ ∀ j : Nat, j ≠ d → si.shape[j]? = ps.shape[j]?) := by
  constructor
  · intro hm
    refine ⟨createScalarShapeInfo ps.dtype, ?_, rfl, rfl⟩
    unfold cosine_distance_loss_shape_fn
    rw [if_neg (by simp [shapeEquals, hsame])]
    simp [hm]
  · intro hm d hd hdr
    have hfn := shape_fn_eval ps ls m axis d hsame (by rw [hsame]; exact hd)
      (by rw [hsame]; exact hdr)
    refine ⟨_, hfn, ?_, ?_, ?_, ?_, ?_⟩
    · simp [hm]
    · simp [hm]
    · simp [hm]
    · simp [hm, hdr]
    · intro j hj
      simp [hm, List.getElem?_set_ne (Ne.symm hj)]

/-- The shape-inference rule at predictions of shape `[2, 3, 4]` and axis -1: a scalar for mode 2, the
shape `[2, 3, 1]` for mode 0. -/
theorem shape_inference_rule_witness :
    (∃ si : ShapeInfo,
        cosine_distance_loss_shape_fn ⟨[2, 3, 4], 'c', DataType.DOUBLE⟩
          ⟨[2, 3, 4], 'f', DataType.FLOAT32⟩ 2 (-1) = Except.ok si
        ∧ si.shape = [] ∧ si.dtype = DataType.DOUBLE)
    ∧ ∃ si : ShapeInfo,
        cosine_distance_loss_shape_fn ⟨[2, 3, 4], 'c', DataType.DOUBLE⟩
          ⟨[2, 3, 4], 'f', DataType.FLOAT32⟩ 0 (-1) = Except.ok si
        ∧ si.shape.length = 3
        ∧ si.dtype = DataType.DOUBLE
        ∧ si.order = 'c'
        ∧ si.shape[2]? = some 1
        ∧ ∀ j : Nat, j ≠ 2 → si.shape[j]? = [2, 3, 4][j]? :=
  ⟨(shape_inference_rule ⟨[2, 3, 4], 'c', DataType.DOUBLE⟩ ⟨[2, 3, 4], 'f', DataType.FLOAT32⟩
      2 (-1) rfl).1 (by decide),
   (shape_inference_rule ⟨[2, 3, 4], 'c', DataType.DOUBLE⟩ ⟨[2, 3, 4], 'f', DataType.FLOAT32⟩
      0 (-1) rfl).2 rfl 2 (by decide) (by decide)⟩

/-- C7 (axis out of range), evaluated at the failing input. For labels of rank 3 and
`axis = -10` the normalized axis is -7; the check `dim < rank` holds, no
axis-out-of-range error is returned and the reduction is reached with dimension
-7. For `axis = 5` the error is returned. -/
theorem axis_check_misses_negative :
    normalizedAxis (-10) exRank3.rankOf = -7
    ∧ (cosine_distance_loss isScalar0 exRank3 (NDArray.scalar 1) exRank3 exOut 1 (-10)).1
        = Status.runtimeFault
    ∧ (cosine_distance_loss isScalar0 exRank3 (NDArray.scalar 1) exRank3 exOut 1 (-10)).1
        ≠ Status.axisOutOfRange
    ∧ (cosine_distance_loss isScalar0 exRank3 (NDArray.scalar 1) exRank3 exOut 1 5).1
        = Status.axisOutOfRange := by
  refine ⟨by decide, ?_, ?_, ?_⟩
  · rw [loss_status]
    decide
  · rw [loss_status]
    decide
  · rw [loss_status]
    decide

/-- C8 (shape mismatch on both entry points). For every weights, axis and
reductionMode, the operator and the shape function each fail with the
shape-mismatch error exactly when the shape of labels differs from the shape of
predictions, in rank or in a dimension. -/
theorem shape_mismatch_both_entries (isScalar : NDArray → Bool) (p w l out : NDArray)
    (ps ls : ShapeInfo) (m axis : Int) :
    ((cosine_distance_loss isScalar p w l out m axis).1 = Status.shapeMismatch
        ↔ l.shape ≠ p.shape)
    ∧ (cosine_distance_loss_shape_fn ps ls m axis = Except.error Status.shapeMismatch
        ↔ ls.shape ≠ ps.shape) := by
  refine ⟨?_, shape_fn_mismatch_iff ps ls m axis⟩
  rw [loss_status]
  by_cases h : l.shape = p.shape
  · rw [if_neg (not_not.mpr h)]
    refine iff_of_false ?_ (not_not.mpr h)
    split_ifs <;> exact fun hc => by cases hc
  · rw [if_pos h]
    exact iff_of_true rfl h

/-- Shape mismatch at labels of shape `[2, 3]` and predictions of shape `[2, 4]`. -/
theorem shape_mismatch_both_entries_witness :
    (cosine_distance_loss isScalar0 exP24 (NDArray.scalar 1) exL23 exOut 1 1).1
        = Status.shapeMismatch
    ∧ cosine_distance_loss_shape_fn ⟨[2, 4], 'c', DataType.FLOAT32⟩
        ⟨[2, 3], 'c', DataType.FLOAT32⟩ 1 1 = Except.error Status.shapeMismatch :=
  ⟨(shape_mismatch_both_entries isScalar0 exP24 (NDArray.scalar 1) exL23 exOut
      ⟨[2, 4], 'c', DataType.FLOAT32⟩ ⟨[2, 3], 'c', DataType.FLOAT32⟩ 1 1).1.mpr (by decide),
   (shape_mismatch_both_entries isScalar0 exP24 (NDArray.scalar 1) exL23 exOut
      ⟨[2, 4], 'c', DataType.FLOAT32⟩ ⟨[2, 3], 'c', DataType.FLOAT32⟩ 1 1).2.mpr (by decide)⟩

/-- C9 (weights incompatible). With equal labels and predictions shapes, the operator
fails with a weights error exactly when weights is not a scalar and either its
rank differs from the rank of labels or one of its dimensions is neither 1 nor
the corresponding dimension of labels. -/
theorem weights_incompatible_iff (isScalar : NDArray → Bool) (p w l out : NDArray)
    (m axis : Int) (hshape : l.shape = p.shape) :
    (cosine_distance_loss isScalar p w l out m axis).1.isWeightsIncompatible = true
      ↔ (isScalar w = false
          ∧ (w.rankOf ≠ l.rankOf ∨ ∃ ab ∈ w.shape.zip l.shape, ab.1 ≠ 1 ∧ ab.1 ≠ ab.2)) := by
  rw [loss_status, if_neg (not_not.mpr hshape)]
  by_cases h2 : isScalar w = false ∧ w.rankOf ≠ l.rankOf
  · rw [if_pos h2]
    exact iff_of_true rfl ⟨h2.1, Or.inl h2.2⟩
  rw [if_neg h2]
  by_cases h3 : isScalar w = false ∧ areShapesBroadcastable w l = false
  · rw [if_pos h3]
    exact iff_of_true rfl ⟨h3.1, Or.inr ((not_broadcastable_iff w l).mp h3.2)⟩
  rw [if_neg h3]
  refine iff_of_false ?_ ?_
  · split_ifs <;> exact fun hc => by cases hc
  · rintro ⟨hs, hr | hb⟩
    · exact h2 ⟨hs, hr⟩
    · exact h3 ⟨hs, (not_broadcastable_iff w l).mpr hb⟩

/-- Weights incompatible at labels of rank 2 and non-scalar weights of rank 1 (shape `[3]`). -/
theorem weights_incompatible_iff_witness :
    (cosine_distance_loss isScalar0 exEye exVec3 exEye exOut 1 1).1.isWeightsIncompatible
      = true :=
  (weights_incompatible_iff isScalar0 exEye exVec3 exEye exOut 1 1 rfl).mpr
    ⟨by decide, Or.inl (by decide)⟩

/-- C10 (invalid reduction mode). On every input that passes the shape, weights and
axis checks, the operator fails with the invalid-reduction-mode error exactly
when `reductionMode` is none of 0, 1, 2, 3. -/
theorem invalid_reduction_mode_iff (isScalar : NDArray → Bool) (p w l out : NDArray)
    (m axis : Int) (hshape : l.shape = p.shape)
    (hw : isScalar w = true ∨ Broadcastable w.shape l.shape)
    (hax : normalizedAxis axis l.rankOf < (l.rankOf : Int)) :
    (cosine_distance_loss isScalar p w l out m axis).1 = Status.invalidReductionMode
      ↔ ¬ (m = 0 ∨ m = 1 ∨ m = 2 ∨ m = 3) := by
  obtain ⟨h2, h3⟩ := checks_pass_of_compatible isScalar w l hw
  rw [loss_status, if_neg (not_not.mpr hshape), if_neg h2, if_neg h3,
    if_neg (not_not.mpr hax)]
  by_cases hm : m = 0 ∨ m = 1 ∨ m = 2 ∨ m = 3
  · rw [if_neg (not_not.mpr hm)]
    refine iff_of_false ?_ (not_not.mpr hm)
    split_ifs <;> exact fun hc => by cases hc
  · rw [if_pos hm]
    exact iff_of_true rfl hm

/-- Invalid reduction mode at `reductionMode = 7`. -/
theorem invalid_reduction_mode_iff_witness :
    (cosine_distance_loss isScalar0 exEye (NDArray.scalar 1) exEye exOut 7 1).1
      = Status.invalidReductionMode :=
  (invalid_reduction_mode_iff isScalar0 exEye (NDArray.scalar 1) exEye exOut 7 1 rfl
    (Or.inl rfl) (by decide)).mpr (by decide)

/-! ## Scalar weights, zero weights, axis symmetry -/

theorem lossTensor_elem_gen (isScalar : NDArray → Bool) (p w l : NDArray) (d : Nat)
    (hS : isScalar w = true ∨ ScalarIsSingle isScalar)
    (hw : isScalar w = true ∨ Broadcastable w.shape l.shape)
    {i : List Nat} (hi : i ∈ indices (l.shape.set d 1)) :
    (lossTensor isScalar p w l d).e i = weightedDistance isScalar p w l d i := by
  by_cases hs : isScalar w = true
  · unfold lossTensor weightedDistance
    simp [hs, broadcastWeights, NDArray.mulAssign, weightAt, NDArray.rsub, mul_comm]
  · exact lossTensor_elem isScalar (hS.resolve_left hs) p w l d hw hi

theorem lossTensor_sum_gen (isScalar : NDArray → Bool) (p w l : NDArray) (d : Nat)
    (hS : isScalar w = true ∨ ScalarIsSingle isScalar)
    (hw : isScalar w = true ∨ Broadcastable w.shape l.shape) :
    (lossTensor isScalar p w l d).reduceSum = sumWeightedDistance isScalar p w l d := by
  rw [reduceSum_congr _ (weightedDistance isScalar p w l d)
    (fun i hi => lossTensor_elem_gen isScalar p w l d hS hw
      (lossTensor_shape isScalar p w l d ▸ hi)),
    lossTensor_shape]
  rfl

theorem lossTensor_count_gen (isScalar : NDArray → Bool) (p w l : NDArray) (d : Nat)
    (hS : isScalar w = true ∨ ScalarIsSingle isScalar)
    (hw : isScalar w = true ∨ Broadcastable w.shape l.shape) :
    (lossTensor isScalar p w l d).countNonZero
      = ((indices (l.shape.set d 1)).filter
          fun i => decide (weightedDistance isScalar p w l d i ≠ 0)).length := by
  unfold NDArray.countNonZero
  rw [lossTensor_shape]
  congr 1
  apply List.filter_congr
  intro i hi
  rw [lossTensor_elem_gen isScalar p w l d hS hw hi]

theorem mode2_eval_gen (isScalar : NDArray → Bool)
    (p w l out : NDArray) (axis : Int) (d : Nat)
    (hS : isScalar w = true ∨ ScalarIsSingle isScalar)
    (hshape : p.shape = l.shape)
    (hw : isScalar w = true ∨ Broadcastable w.shape l.shape)
    (hd : normalizedAxis axis l.rankOf = (d : Int)) (hdr : d < l.rankOf) :
    cosine_distance_loss isScalar p w l out 2 axis
      = (Status.OK, NDArray.scalar
          (if sumOfWeights isScalar w (l.shape.set d 1) = 0 then 0
           else sumWeightedDistance isScalar p w l d
             / sumOfWeights isScalar w (l.shape.set d 1))) := by
  rw [loss_reaches_switch isScalar p w l out 2 axis d hshape.symm hw hd hdr
    (Or.inr (Or.inr (Or.inl rfl)))]
  have hden : (if isScalar w = true
        then w.e0 * ((lossTensor isScalar p w l d).lengthOf : ℚ)
        else (broadcastWeights isScalar w (l.shape.set d 1)).reduceSum)
      = sumOfWeights isScalar w (l.shape.set d 1) := by
    unfold sumOfWeights
    by_cases hs : isScalar w = true
    · simp [hs, NDArray.lengthOf, lossTensor_shape]
    · have hs0 : isScalar w = false := by simpa using hs
      simp only [hs0, Bool.false_eq_true, if_false]
      exact broadcastWeights_sum isScalar w l d hs0 (hw.resolve_left hs)
  unfold reductionSwitch
  simp only [show (2 : Int) ≠ 0 by decide, show (2 : Int) ≠ 1 by decide, if_false, if_true,
    hden, lossTensor_sum_gen isScalar p w l d hS hw]
  split <;> rfl

theorem mode3_eval_gen (isScalar : NDArray → Bool)
    (p w l out : NDArray) (axis : Int) (d : Nat)
    (hS : isScalar w = true ∨ ScalarIsSingle isScalar)
    (hshape : p.shape = l.shape)
    (hw : isScalar w = true ∨ Broadcastable w.shape l.shape)
    (hd : normalizedAxis axis l.rankOf = (d : Int)) (hdr : d < l.rankOf) :
    cosine_distance_loss isScalar p w l out 3 axis
      = (Status.OK, NDArray.scalar
          (if nonZeroDivisor isScalar p w l d = 0 then 0
           else sumWeightedDistance isScalar p w l d
             / (nonZeroDivisor isScalar p w l d : ℚ))) := by
  rw [loss_reaches_switch isScalar p w l out 3 axis d hshape.symm hw hd hdr
    (Or.inr (Or.inr (Or.inr rfl)))]
  have hden : (if isScalar w = true
        then (if w.e0 ≠ 0 then (lossTensor isScalar p w l d).lengthOf else 0)
        else (lossTensor isScalar p w l d).countNonZero)
      = nonZeroDivisor isScalar p w l d := by
    unfold nonZeroDivisor
    by_cases hs : isScalar w = true
    · simp [hs, NDArray.lengthOf, lossTensor_shape]
    · have hs0 : isScalar w = false := by simpa using hs
      simp only [hs0, Bool.false_eq_true, if_false]
      exact lossTensor_count_gen isScalar p w l d hS hw
  unfold reductionSwitch
  simp only [show (3 : Int) ≠ 0 by decide, show (3 : Int) ≠ 1 by decide,
    show (3 : Int) ≠ 2 by decide, if_false, if_true,
    hden, lossTensor_sum_gen isScalar p w l d hS hw]
  split <;> rfl

theorem sumOfWeights_scalar (isScalar : NDArray → Bool) (w : NDArray) (eshape : List Nat)
    (hs : isScalar w = true) :
    sumOfWeights isScalar w eshape = w.e0 * (eshape.prod : ℚ) := by
  simp [sumOfWeights, hs]

theorem sumWeightedDistance_scalar (isScalar : NDArray → Bool) (p w l : NDArray) (d : Nat)
    (hs : isScalar w = true) :
    sumWeightedDistance isScalar p w l d
      = w.e0 * ((indices (l.shape.set d 1)).map fun i => 1 - dotAlong p l d i).sum := by
  unfold sumWeightedDistance weightedDistance weightAt
  simp only [hs, if_true]
  rw [← List.sum_map_mul_left]

/-- C11 (zero-weight edge case). For predictions and labels of equal shape, a valid
axis and weights that are the scalar 0, the operator succeeds with
`reductionMode = 2` and with `reductionMode = 3`, and the output is exactly 0. -/
theorem zero_weight_edge_case (isScalar : NDArray → Bool)
    (p w l out : NDArray) (axis : Int) (d : Nat)
    (hshape : p.shape = l.shape)
    (hs : isScalar w = true) (h0 : w.e0 = 0)
    (hd : normalizedAxis axis l.rankOf = (d : Int)) (hdr : d < l.rankOf) :
    cosine_distance_loss isScalar p w l out 2 axis = (Status.OK, NDArray.scalar 0)
    ∧ cosine_distance_loss isScalar p w l out 3 axis = (Status.OK, NDArray.scalar 0) := by
  constructor
  · rw [mode2_eval_gen isScalar p w l out axis d (Or.inl hs) hshape (Or.inl hs) hd hdr,
      sumOfWeights_scalar isScalar w _ hs, h0]
    simp
  · rw [mode3_eval_gen isScalar p w l out axis d (Or.inl hs) hshape (Or.inl hs) hd hdr]
    simp [nonZeroDivisor, hs, h0]

/-- The zero-weight edge case at the 2 x 2 identity, axis 1, weights the scalar 0. -/
theorem zero_weight_edge_case_witness :
    cosine_distance_loss isScalar0 exEye (NDArray.scalar 0) exEye exOut 2 1
      = (Status.OK, NDArray.scalar 0)
    ∧ cosine_distance_loss isScalar0 exEye (NDArray.scalar 0) exEye exOut 3 1
      = (Status.OK, NDArray.scalar 0) :=
  zero_weight_edge_case isScalar0 exEye (NDArray.scalar 0) exEye exOut 1 1 rfl rfl rfl
    (by decide) (by decide)

/-- C12 (mode 3 with scalar weights). On every input that passes validation, with
`reductionMode = 3` and scalar weights `w`: when `w != 0` the divisor is the
length of `E` and the output is `sum(E) / length(E)`; when `w = 0` the divisor is
0 and the output is 0.  (For an empty `E` and `w != 0` both sides are 0: the
operator takes its zero-count branch.) -/
theorem mode3_scalar_weights (isScalar : NDArray → Bool)
    (p w l out : NDArray) (axis : Int) (d : Nat)
    (hshape : p.shape = l.shape) (hs : isScalar w = true)
    (hd : normalizedAxis axis l.rankOf = (d : Int)) (hdr : d < l.rankOf) :
    (w.e0 ≠ 0 →
      nonZeroDivisor isScalar p w l d = (l.shape.set d 1).prod
      ∧ cosine_distance_loss isScalar p w l out 3 axis
          = (Status.OK, NDArray.scalar
              (sumWeightedDistance isScalar p w l d / ((l.shape.set d 1).prod : ℚ))))
    ∧ (w.e0 = 0 →
      nonZeroDivisor isScalar p w l d = 0
      ∧ cosine_distance_loss isScalar p w l out 3 axis = (Status.OK, NDArray.scalar 0)) := by
  have hrun := mode3_eval_gen isScalar p w l out axis d (Or.inl hs) hshape (Or.inl hs) hd hdr
  constructor
  · intro hne
    have hdiv : nonZeroDivisor isScalar p w l d = (l.shape.set d 1).prod := by
      simp [nonZeroDivisor, hs, hne]
    refine ⟨hdiv, ?_⟩
    rw [hrun, hdiv]
    by_cases hz : (l.shape.set d 1).prod = 0
    · simp [hz]
    · simp [hz]
  · intro h0
    have hdiv : nonZeroDivisor isScalar p w l d = 0 := by
      simp [nonZeroDivisor, hs, h0]
    refine ⟨hdiv, ?_⟩
    rw [hrun, hdiv]
    simp

/-- Mode 3 with the scalar weight 2 at predictions = labels = `[[1, 0], [0, 0]]`,
axis 1: the divisor is the length 2 of `E`. -/
theorem mode3_scalar_weights_witness :
    nonZeroDivisor isScalar0 exHalf (NDArray.scalar 2) exHalf 1 = 2
    ∧ cosine_distance_loss isScalar0 exHalf (NDArray.scalar 2) exHalf exOut 3 1
        = (Status.OK, NDArray.scalar
            (sumWeightedDistance isScalar0 exHalf (NDArray.scalar 2) exHalf 1 / ((2 : Nat) : ℚ))) :=
  (mode3_scalar_weights isScalar0 exHalf (NDArray.scalar 2) exHalf exOut 1 1 rfl rfl
    (by decide) (by decide)).1 (by norm_num [NDArray.e0, NDArray.scalar])

/-- C20 (mode 2 is scale-invariant in a scalar weight). For predictions and labels of
equal shape with a non-empty `E`, a valid axis and a non-zero scalar weight, the
output for `reductionMode = 2` is the plain mean of the unweighted distances,
`(sum over i of (1 - sum over the axis of predictions * labels at i)) / length(E)`,
whatever the value of the weight. -/
theorem mode2_scalar_scale_invariant (isScalar : NDArray → Bool)
    (p w l out : NDArray) (axis : Int) (d : Nat)
    (hshape : p.shape = l.shape) (hs : isScalar w = true) (hw0 : w.e0 ≠ 0)
    (hne : (l.shape.set d 1).prod ≠ 0)
    (hd : normalizedAxis axis l.rankOf = (d : Int)) (hdr : d < l.rankOf) :
    cosine_distance_loss isScalar p w l out 2 axis
      = (Status.OK, NDArray.scalar
          (((indices (l.shape.set d 1)).map fun i => 1 - dotAlong p l d i).sum
            / ((l.shape.set d 1).prod : ℚ))) := by
  have hlen : (((l.shape.set d 1).prod : Nat) : ℚ) ≠ 0 := by exact_mod_cast hne
  rw [mode2_eval_gen isScalar p w l out axis d (Or.inl hs) hshape (Or.inl hs) hd hdr,
    sumOfWeights_scalar isScalar w _ hs, sumWeightedDistance_scalar isScalar p w l d hs,
    if_neg (mul_ne_zero hw0 hlen), mul_div_mul_left _ _ hw0]

/-- Scale invariance at predictions = labels = `[[1, 0], [0, 0]]`, axis 1 and the scalar
weight 2: the mean of the distances 0 and 1. -/
theorem mode2_scalar_scale_invariant_witness :
    cosine_distance_loss isScalar0 exHalf (NDArray.scalar 2) exHalf exOut 2 1
      = (Status.OK, NDArray.scalar
          (((indices [2, 1]).map fun i => 1 - dotAlong exHalf exHalf 1 i).sum
            / ((2 : Nat) : ℚ))) :=
  mode2_scalar_scale_invariant isScalar0 exHalf (NDArray.scalar 2) exHalf exOut 1 1 rfl rfl
    (by norm_num [NDArray.e0, NDArray.scalar]) (by decide) (by decide) (by decide)

theorem length_indices (s : List Nat) : (indices s).length = s.prod := by
  induction s with
  | nil => rfl
  | cons d ds ih =>
    simp only [indices, List.length_flatMap, Function.comp_def, List.length_map, ih,
      List.prod_cons]
    simp [List.map_const', List.sum_replicate]

theorem replicate_mem_indices {s : List Nat} (h : s.prod ≠ 0) :
    List.replicate s.length 0 ∈ indices s := by
  rw [mem_indices]
  induction s with
  | nil => exact List.Forall₂.nil
  | cons d ds ih =>
    rw [List.prod_cons] at h
    have hd : d ≠ 0 := fun hc => h (by simp [hc])
    have hds : ds.prod ≠ 0 := fun hc => h (by simp [hc])
    simp only [List.length_cons, List.replicate_succ]
    exact List.Forall₂.cons (Nat.pos_of_ne_zero hd) (ih hds)

theorem weightAt_const (isScalar : NDArray → Bool) (w : NDArray) (c : ℚ)
    (hs : isScalar w = false) (he : ∀ i ∈ indices w.shape, w.e i = c)
    {i : List Nat} (hi : i ∈ indices w.shape) : weightAt isScalar w i = c := by
  unfold weightAt
  simp only [hs, Bool.false_eq_true, if_false]
  rw [same_index (mem_indices.mp hi)]
  exact he i hi

theorem sum_const_indices (s : List Nat) (c : ℚ) :
    ((indices s).map fun _ => c).sum = c * (s.prod : ℚ) := by
  simp [List.map_const', List.sum_replicate, length_indices, mul_comm]

/-- C13 (scalar-weights equivalence). For predictions and labels of equal shape, a
valid axis and a constant `c`, the operator with `reductionMode = 2` returns the
same output for scalar weights of value `c` as for a weights tensor that has the
shape of `E` and every entry equal to `c`. -/
theorem scalar_weights_equivalence (isScalar : NDArray → Bool) (hS : ScalarIsSingle isScalar)
    (p l out ws wt : NDArray) (c : ℚ) (axis : Int) (d : Nat)
    (hshape : p.shape = l.shape)
    (hd : normalizedAxis axis l.rankOf = (d : Int)) (hdr : d < l.rankOf)
    (hws : isScalar ws = true) (hc : ws.e0 = c)
    (hts : wt.shape = l.shape.set d 1) (hte : ∀ i ∈ indices wt.shape, wt.e i = c) :
    ∃ v : ℚ,
      cosine_distance_loss isScalar p ws l out 2 axis = (Status.OK, NDArray.scalar v)
      ∧ cosine_distance_loss isScalar p wt l out 2 axis = (Status.OK, NDArray.scalar v) := by
  refine ⟨if c * ((l.shape.set d 1).prod : ℚ) = 0 then 0
      else c * ((indices (l.shape.set d 1)).map fun i => 1 - dotAlong p l d i).sum
        / (c * ((l.shape.set d 1).prod : ℚ)), ?_, ?_⟩
  · rw [mode2_eval_gen isScalar p ws l out axis d (Or.inl hws) hshape (Or.inl hws) hd hdr,
      sumOfWeights_scalar isScalar ws _ hws, sumWeightedDistance_scalar isScalar p ws l d hws, hc]
  · by_cases hwt : isScalar wt = true
    · have he0 : wt.e0 = c := by
        have hone : wt.shape.prod = 1 := hS wt hwt
        exact hte _ (replicate_mem_indices (by rw [hone]; exact one_ne_zero))
      rw [mode2_eval_gen isScalar p wt l out axis d (Or.inl hwt) hshape (Or.inl hwt) hd hdr,
        sumOfWeights_scalar isScalar wt _ hwt, sumWeightedDistance_scalar isScalar p wt l d hwt,
        he0]
    · have hs0 : isScalar wt = false := by simpa using hwt
      have hB : Broadcastable wt.shape l.shape :=
        broadcastable_iff.mpr (hts ▸ collapsed_compat l.shape d)
      have hden : sumOfWeights isScalar wt (l.shape.set d 1)
          = c * ((l.shape.set d 1).prod : ℚ) := by
        unfold sumOfWeights
        simp only [hs0, Bool.false_eq_true, if_false]
        rw [List.map_congr_left (fun i hi =>
          weightAt_const isScalar wt c hs0 hte (hts ▸ hi)), sum_const_indices]
      have hnum : sumWeightedDistance isScalar p wt l d
          = c * ((indices (l.shape.set d 1)).map fun i => 1 - dotAlong p l d i).sum := by
        unfold sumWeightedDistance weightedDistance
        rw [List.map_congr_left (fun i hi => by
          rw [weightAt_const isScalar wt c hs0 hte (hts ▸ hi)]), List.sum_map_mul_left]
      rw [mode2_eval_gen isScalar p wt l out axis d (Or.inr hS) hshape (Or.inr hB) hd hdr,
        hden, hnum]

/-- Scalar-weights equivalence at predictions = labels = `[[1, 0], [0, 0]]`, axis 1: the
scalar 3 against the tensor of shape `[2, 1]` filled with 3. -/
theorem scalar_weights_equivalence_witness :
    ∃ v : ℚ,
      cosine_distance_loss isScalar0 exHalf (NDArray.scalar 3) exHalf exOut 2 1
        = (Status.OK, NDArray.scalar v)
      ∧ cosine_distance_loss isScalar0 exHalf exConst3 exHalf exOut 2 1
        = (Status.OK, NDArray.scalar v) :=
  scalar_weights_equivalence isScalar0 isScalar0_single exHalf exHalf exOut (NDArray.scalar 3)
    exConst3 3 1 1 rfl (by decide) (by decide) rfl rfl rfl (fun _ _ => rfl)

theorem normalizedAxis_of_negative (a r : Nat) (h : a < r) :
    (if ((a : Int) - (r : Int)) < 0 then ((a : Int) - (r : Int)) + (r : Int)
      else ((a : Int) - (r : Int))) = (a : Int) := by
  have : ((a : Int) - (r : Int)) < 0 := by omega
  rw [if_pos this]
  omega

theorem normalizedAxis_of_nonneg (a r : Nat) :
    (if (a : Int) < 0 then (a : Int) + (r : Int) else (a : Int)) = (a : Int) := by
  have : ¬ (a : Int) < 0 := by omega
  rw [if_neg this]

/-- C14 (a negative axis counts from the end). For labels of rank `r` and every `a`
with `0 <= a < r`, and every predictions, weights and reductionMode, the operator
and the shape function each return the same result (status, output shape and
contents) for `axis = a - r` as for `axis = a`. -/
theorem negative_axis_counts_from_end (isScalar : NDArray → Bool) (p w l out : NDArray)
    (ps ls : ShapeInfo) (m : Int) (a : Nat)
    (hls : ls.shape = l.shape) (ha : a < l.rankOf) :
    cosine_distance_loss isScalar p w l out m ((a : Int) - (l.rankOf : Int))
      = cosine_distance_loss isScalar p w l out m (a : Int)
    ∧ cosine_distance_loss_shape_fn ps ls m ((a : Int) - (l.rankOf : Int))
      = cosine_distance_loss_shape_fn ps ls m (a : Int) := by
  constructor
  · unfold cosine_distance_loss
    simp only [normalizedAxis_of_negative a l.rankOf ha, normalizedAxis_of_nonneg a l.rankOf]
  · have hr : ls.shape.length = l.rankOf := by rw [hls]; rfl
    unfold cosine_distance_loss_shape_fn
    simp only [hr, normalizedAxis_of_negative a l.rankOf ha, normalizedAxis_of_nonneg a l.rankOf]

/-- Axis -1 against axis 1 on rank-2 labels. -/
theorem negative_axis_counts_from_end_witness :
    cosine_distance_loss isScalar0 exHalf exRowWeights exHalf exOut 2 (-1)
      = cosine_distance_loss isScalar0 exHalf exRowWeights exHalf exOut 2 1
    ∧ cosine_distance_loss_shape_fn ⟨[2, 2], 'c', DataType.FLOAT32⟩
        ⟨[2, 2], 'c', DataType.FLOAT32⟩ 2 (-1)
      = cosine_distance_loss_shape_fn ⟨[2, 2], 'c', DataType.FLOAT32⟩
        ⟨[2, 2], 'c', DataType.FLOAT32⟩ 2 1 :=
  negative_axis_counts_from_end isScalar0 exHalf exRowWeights exHalf exOut
    ⟨[2, 2], 'c', DataType.FLOAT32⟩ ⟨[2, 2], 'c', DataType.FLOAT32⟩ 2 1 rfl (by decide)

/-- C15 (no partial output on failure). Whenever the operator returns one of the four
validation errors (shape mismatch, weights incompatible, axis out of range,
invalid reduction mode), the output array is exactly as it was before the call:
every check comes before the first computation and the only writes. -/
theorem no_partial_output_on_failure (isScalar : NDArray → Bool) (p w l out : NDArray)
    (m axis : Int)
    (h : (cosine_distance_loss isScalar p w l out m axis).1 = Status.shapeMismatch
      ∨ (cosine_distance_loss isScalar p w l out m axis).1.isWeightsIncompatible = true
      ∨ (cosine_distance_loss isScalar p w l out m axis).1 = Status.axisOutOfRange
      ∨ (cosine_distance_loss isScalar p w l out m axis).1 = Status.invalidReductionMode) :
    (cosine_distance_loss isScalar p w l out m axis).2 = out := by
  apply loss_output_of_failure
  intro hok
  rw [hok] at h
  rcases h with h | h | h | h <;> cases h

/-- A call with `reductionMode = 7` leaves the output array as it was. -/
theorem no_partial_output_on_failure_witness :
    (cosine_distance_loss isScalar0 exEye (NDArray.scalar 1) exEye exOut 7 1).2 = exOut :=
  no_partial_output_on_failure isScalar0 exEye (NDArray.scalar 1) exEye exOut 7 1
    (Or.inr (Or.inr (Or.inr (by rw [loss_status]; decide))))

theorem broadcast_index_mem {ws ls : List Nat}
    (hw : List.Forall₂ (fun a b => a = 1 ∨ a = b) ws ls) :
    ∀ {i : List Nat}, List.Forall₂ (fun x d => x < d) i ls →
      List.Forall₂ (fun x d => x < d)
        (List.zipWith (fun ij dj => if dj = 1 then 0 else ij) i ws) ws := by
  induction hw with
  | nil =>
    intro i hi
    cases hi
    exact List.Forall₂.nil
  | @cons a b ws ls hab _ ih =>
    intro i hi
    cases hi with
    | @cons x _ i _ hx hi =>
      simp only [List.zipWith_cons_cons]
      refine List.Forall₂.cons ?_ (ih hi)
      by_cases ha : a = 1
      · simp [ha]
      · simp only [ha, if_false]
        rcases hab with h | h
        · exact absurd h ha
        · rw [h]
          exact hx

theorem broadcast_index_mem_collapsed {ws ls : List Nat}
    (hw : List.Forall₂ (fun a b => a = 1 ∨ a = b) ws ls) :
    ∀ {d : Nat} {i : List Nat}, ws.getD d 0 ≠ 0 →
      List.Forall₂ (fun x d => x < d) i (ls.set d 1) →
      List.Forall₂ (fun x d => x < d)
        (List.zipWith (fun ij dj => if dj = 1 then 0 else ij) i ws) ws := by
  induction hw with
  | nil =>
    intro d i _ hi
    cases hi
    exact List.Forall₂.nil
  | @cons a b ws ls hab hrest ih =>
    intro d i hne hi
    cases d with
    | zero =>
      have ha0 : a ≠ 0 := by simpa using hne
      rw [List.set_cons_zero] at hi
      cases hi with
      | @cons x _ i _ hx hi =>
        simp only [List.zipWith_cons_cons]
        refine List.Forall₂.cons ?_ (broadcast_index_mem hrest hi)
        have hx0 : x = 0 := by omega
        by_cases ha : a = 1
        · simp [ha]
        · simp only [ha, if_false, hx0]
          exact Nat.pos_of_ne_zero ha0
    | succ d =>
      have hne2 : ws.getD d 0 ≠ 0 := by simpa using hne
      rw [List.set_cons_succ] at hi
      cases hi with
      | @cons x _ i _ hx hi =>
        simp only [List.zipWith_cons_cons]
        refine List.Forall₂.cons ?_ (ih hne2 hi)
        by_cases ha : a = 1
        · simp [ha]
        · simp only [ha, if_false]
          rcases hab with h | h
          · exact absurd h ha
          · rw [h]
            exact hx

theorem sumWeightedDistance_eq_zero (isScalar : NDArray → Bool) (p w l : NDArray) (d : Nat)
    (h : ∀ i ∈ indices (l.shape.set d 1), weightedDistance isScalar p w l d i = 0) :
    sumWeightedDistance isScalar p w l d = 0 := by
  unfold sumWeightedDistance
  rw [List.map_congr_left h]
  simp

theorem nonZeroDivisor_eq_zero (isScalar : NDArray → Bool) (p w l : NDArray) (d : Nat)
    (hs : isScalar w = false)
    (h : ∀ i ∈ indices (l.shape.set d 1), weightedDistance isScalar p w l d i = 0) :
    nonZeroDivisor isScalar p w l d = 0 := by
  unfold nonZeroDivisor
  simp only [hs, Bool.false_eq_true, if_false, List.length_eq_zero]
  rw [List.filter_eq_nil_iff]
  intro i hi
  simp [h i hi]

/-- C16 (mode 3 with an all-zero weights tensor). On every input that passes
validation, with `reductionMode = 3` and a non-scalar weights tensor whose
entries are all zero (and which is not empty along the reduction axis, so that
the entries broadcast to `E` exist), the output is exactly 0. -/
theorem mode3_all_zero_weights (isScalar : NDArray → Bool) (hS : ScalarIsSingle isScalar)
    (p w l out : NDArray) (axis : Int) (d : Nat)
    (hshape : p.shape = l.shape)
    (hs : isScalar w = false) (hB : Broadcastable w.shape l.shape)
    (hz : ∀ j ∈ indices w.shape, w.e j = 0) (hne : w.shape.getD d 0 ≠ 0)
    (hd : normalizedAxis axis l.rankOf = (d : Int)) (hdr : d < l.rankOf) :
    cosine_distance_loss isScalar p w l out 3 axis = (Status.OK, NDArray.scalar 0) := by
  have hzero : ∀ i ∈ indices (l.shape.set d 1), weightedDistance isScalar p w l d i = 0 := by
    intro i hi
    have hmem : List.zipWith (fun ij dj => if dj = 1 then 0 else ij) i w.shape
        ∈ indices w.shape :=
      mem_indices.mpr
        (broadcast_index_mem_collapsed (broadcastable_iff.mp hB) hne (mem_indices.mp hi))
    simp [weightedDistance, weightAt, hs, hz _ hmem]
  rw [mode3_eval_gen isScalar p w l out axis d (Or.inr hS) hshape (Or.inr hB) hd hdr,
    nonZeroDivisor_eq_zero isScalar p w l d hs hzero]
  simp

/-- Mode 3 at predictions = labels = `[[1, 0], [0, 0]]`, axis 1, with the all-zero
weights of shape `[2, 1]`. -/
theorem mode3_all_zero_weights_witness :
    cosine_distance_loss isScalar0 exHalf exZeros exHalf exOut 3 1
      = (Status.OK, NDArray.scalar 0) :=
  mode3_all_zero_weights isScalar0 isScalar0_single exHalf exZeros exHalf exOut 1 1 rfl
    (by decide) ⟨rfl, by decide⟩ (fun _ _ => rfl) (by decide) (by decide) (by decide)

theorem exEye_unit_rows : ∀ i ∈ indices (exEye.shape.set 1 1), dotAlong exEye exEye 1 i = 1 := by
  have hI : indices (exEye.shape.set 1 1) = [[0, 0], [1, 0]] := by decide
  have hR : List.range 2 = [0, 1] := by decide
  intro i hi
  rw [hI] at hi
  simp only [List.mem_cons, List.mem_singleton, List.not_mem_nil, or_false] at hi
  rcases hi with h | h <;> subst h <;> simp [dotAlong, exEye, NDArray.ofRows, hR]

/-- C17 (zero self-distance of unit vectors). For a tensor `X` and a valid axis `d`
such that the sum of squares of `X` along the axis is 1 at every remaining
coordinate, the operator with predictions = labels = `X` and any compatible
weights outputs 0 in every element for `reductionMode = 0` and the scalar 0 for
`reductionMode` 1, 2 and 3. -/
theorem zero_self_distance (isScalar : NDArray → Bool) (hS : ScalarIsSingle isScalar)
    (X w out : NDArray) (axis : Int) (d : Nat)
    (hw : isScalar w = true ∨ Broadcastable w.shape X.shape)
    (hd : normalizedAxis axis X.rankOf = (d : Int)) (hdr : d < X.rankOf)
    (hunit : ∀ i ∈ indices (X.shape.set d 1), dotAlong X X d i = 1) :
    (∃ E : NDArray,
        cosine_distance_loss isScalar X w X out 0 axis = (Status.OK, E)
        ∧ E.shape = X.shape.set d 1
        ∧ ∀ i ∈ indices E.shape, E.e i = 0)
    ∧ cosine_distance_loss isScalar X w X out 1 axis = (Status.OK, NDArray.scalar 0)
    ∧ cosine_distance_loss isScalar X w X out 2 axis = (Status.OK, NDArray.scalar 0)
    ∧ cosine_distance_loss isScalar X w X out 3 axis = (Status.OK, NDArray.scalar 0) := by
  have hzero : ∀ i ∈ indices (X.shape.set d 1), weightedDistance isScalar X w X d i = 0 := by
    intro i hi
    simp [weightedDistance, hunit i hi]
  have hsum : sumWeightedDistance isScalar X w X d = 0 :=
    sumWeightedDistance_eq_zero isScalar X w X d hzero
  refine ⟨⟨lossTensor isScalar X w X d, mode0_eval isScalar X w X out axis d rfl hw hd hdr,
    lossTensor_shape isScalar X w X d, ?_⟩, ?_, ?_, ?_⟩
  · intro i hi
    rw [lossTensor_shape] at hi
    rw [lossTensor_elem isScalar hS X w X d hw hi]
    exact hzero i hi
  · rw [mode1_eval isScalar X w X out axis d rfl hw hd hdr,
      lossTensor_sum isScalar hS X w X d hw, hsum]
  · rw [mode2_eval isScalar hS X w X out axis d rfl hw hd hdr, hsum]
    simp
  · rw [mode3_eval isScalar hS X w X out axis d rfl hw hd hdr, hsum]
    simp

/-- Zero self-distance at the spec's scenario: `X` the 2 x 2 identity, axis 1, weights
the scalar 1; the mode-1 output is 0. -/
theorem zero_self_distance_witness :
    (∃ E : NDArray,
        cosine_distance_loss isScalar0 exEye (NDArray.scalar 1) exEye exOut 0 1 = (Status.OK, E)
        ∧ E.shape = [2, 1]
        ∧ ∀ i ∈ indices E.shape, E.e i = 0)
    ∧ cosine_distance_loss isScalar0 exEye (NDArray.scalar 1) exEye exOut 1 1
        = (Status.OK, NDArray.scalar 0)
    ∧ cosine_distance_loss isScalar0 exEye (NDArray.scalar 1) exEye exOut 2 1
        = (Status.OK, NDArray.scalar 0)
    ∧ cosine_distance_loss isScalar0 exEye (NDArray.scalar 1) exEye exOut 3 1
        = (Status.OK, NDArray.scalar 0) :=
  zero_self_distance isScalar0 isScalar0_single exEye (NDArray.scalar 1) exOut 1 1
    (Or.inl rfl) (by decide) (by decide) exEye_unit_rows

theorem compat_at {ws ls : List Nat}
    (hw : List.Forall₂ (fun a b => a = 1 ∨ a = b) ws ls) :
    ∀ (k a b : Nat), ws[k]? = some a → ls[k]? = some b → a = 1 ∨ a = b := by
  induction hw with
  | nil =>
    intro k a b ha _
    simp at ha
  | @cons x y ws ls hxy _ ih =>
    intro k a b ha hb
    cases k with
    | zero =>
      simp only [List.getElem?_cons_zero, Option.some.injEq] at ha hb
      subst ha
      subst hb
      exact hxy
    | succ k =>
      simp only [List.getElem?_cons_succ] at ha hb
      exact ih k a b ha hb

/-- An input whose status is none of the five check errors passed both weights
checks: non-scalar weights are then broadcastable to labels. -/
theorem accepted_weights (isScalar : NDArray → Bool) (p w l out : NDArray) (m axis : Int)
    (hacc : (cosine_distance_loss isScalar p w l out m axis).1 = Status.OK
      ∨ (cosine_distance_loss isScalar p w l out m axis).1 = Status.runtimeFault)
    (hs : isScalar w = false) : Broadcastable w.shape l.shape := by
  rw [loss_status] at hacc
  by_cases h1 : l.shape ≠ p.shape
  · rw [if_pos h1] at hacc
    rcases hacc with h | h <;> cases h
  rw [if_neg h1] at hacc
  by_cases h2 : isScalar w = false ∧ w.rankOf ≠ l.rankOf
  · rw [if_pos h2] at hacc
    rcases hacc with h | h <;> cases h
  rw [if_neg h2] at hacc
  by_cases h3 : isScalar w = false ∧ areShapesBroadcastable w l = false
  · rw [if_pos h3] at hacc
    rcases hacc with h | h <;> cases h
  refine ⟨?_, ?_⟩
  · by_contra hr
    exact h2 ⟨hs, hr⟩
  · apply (areShapesBroadcastable_iff w l).mp
    by_contra hb
    exact h3 ⟨hs, by simpa using hb⟩

/-- C18, as stated, fails: labels = predictions = weights = the 2 x 2 identity with
axis 1 pass every check (the call succeeds), the weights are not a scalar, and
their size 2 along the reduction axis is neither 1 nor the size 1 of `E`. -/
theorem validation_allows_full_axis_weights :
    (cosine_distance_loss isScalar0 exEye exEye exEye exOut 0 1).1 = Status.OK
    ∧ isScalar0 exEye = false
    ∧ areShapesBroadcastable exEye exEye = true
    ∧ ¬ Broadcastable exEye.shape (exEye.shape.set 1 1) := by
  refine ⟨?_, by decide, by decide, ?_⟩
  · rw [loss_status]
    decide
  · intro h
    have h2 := h.2 (2, 1) (by decide)
    simp at h2

theorem accepted_shape (isScalar : NDArray → Bool) (p w l out : NDArray) (m axis : Int)
    (hacc : (cosine_distance_loss isScalar p w l out m axis).1 = Status.OK
      ∨ (cosine_distance_loss isScalar p w l out m axis).1 = Status.runtimeFault) :
    l.shape = p.shape := by
  rw [loss_status] at hacc
  by_contra h1
  rw [if_pos h1] at hacc
  rcases hacc with h | h <;> cases h

theorem compat_set_one {ws ls : List Nat}
    (hw : List.Forall₂ (fun a b => a = 1 ∨ a = b) ws ls) :
    ∀ (d : Nat), ws[d]? = some 1 →
      List.Forall₂ (fun a c => a = 1 ∨ a = c) ws (ls.set d 1) := by
  induction hw with
  | nil =>
    intro d h
    simp at h
  | @cons x y ws ls hxy hrest ih =>
    intro d h
    cases d with
    | zero =>
      simp only [List.getElem?_cons_zero, Option.some.injEq] at h
      rw [List.set_cons_zero]
      exact List.Forall₂.cons (Or.inl h) hrest
    | succ d =>
      simp only [List.getElem?_cons_succ] at h
      rw [List.set_cons_succ]
      exact List.Forall₂.cons hxy (ih d h)

/-- C18, amended. On every input that passes the operator's validation with
non-scalar weights and a normalized axis `d` in `[0, rank)`: every dimension of
weights other than `d` is 1 or equals the corresponding dimension of `E`; the
weights shape can be tiled to the shape of `E` (every dimension is 1 or equals
that of `E`) exactly when the dimension `d` of weights is 1; and in that case the
tiling step and `E *= weights` meet compatible shapes, the operator with
`reductionMode = 0` returning `E` with the weights entry (size-1 dimensions
broadcast) times the distance at every coordinate. -/
theorem weights_broadcast_off_axis (isScalar : NDArray → Bool)
    (hS : ScalarIsSingle isScalar) (p w l out : NDArray)
    (m axis : Int) (d : Nat)
    (hacc : (cosine_distance_loss isScalar p w l out m axis).1 = Status.OK
      ∨ (cosine_distance_loss isScalar p w l out m axis).1 = Status.runtimeFault)
    (hs : isScalar w = false)
    (hd : normalizedAxis axis l.rankOf = (d : Int)) (hdr : d < l.rankOf) :
    (∀ k a b : Nat, k ≠ d → w.shape[k]? = some a → (l.shape.set d 1)[k]? = some b →
        a = 1 ∨ a = b)
    ∧ (Broadcastable w.shape (l.shape.set d 1) ↔ w.shape[d]? = some 1)
    ∧ (w.shape[d]? = some 1 →
        ∃ E : NDArray,
          cosine_distance_loss isScalar p w l out 0 axis = (Status.OK, E)
          ∧ E.shape = l.shape.set d 1
          ∧ ∀ i ∈ indices E.shape,
              E.e i = weightAt isScalar w i * (1 - dotAlong p l d i)) := by
  have hB := accepted_weights isScalar p w l out m axis hacc hs
  have hshape := accepted_shape isScalar p w l out m axis hacc
  have hdl : d < l.shape.length := hdr
  have hdw : d < w.shape.length := by rw [hB.1]; exact hdl
  refine ⟨?_, ⟨?_, ?_⟩, ?_⟩
  · intro k a b hk ha hb
    rw [List.getElem?_set_ne (Ne.symm hk)] at hb
    exact compat_at (broadcastable_iff.mp hB) k a b ha hb
  · intro h
    have hE : (l.shape.set d 1)[d]? = some 1 := by simp [hdl]
    have hW : w.shape[d]? = some w.shape[d] := by simp
    rcases compat_at (broadcastable_iff.mp h) d w.shape[d] 1 hW hE with h1 | h1 <;>
      rw [hW, h1]
  · intro h
    exact broadcastable_iff.mpr (compat_set_one (broadcastable_iff.mp hB) d h)
  · intro _
    refine ⟨lossTensor isScalar p w l d,
      mode0_eval isScalar p w l out axis d hshape.symm (Or.inr hB) hd hdr,
      lossTensor_shape isScalar p w l d, ?_⟩
    intro i hi
    rw [lossTensor_shape] at hi
    exact lossTensor_elem isScalar hS p w l d (Or.inr hB) hi

/-- The amended statement at the 2 x 2 identity as labels and predictions, axis 1:
the per-row weights of shape `[2, 1]` pass the checks and can be tiled to `E`;
the full weights of shape `[2, 2]` pass the checks and cannot. -/
theorem weights_broadcast_off_axis_witness :
    (Broadcastable exRowWeights.shape (exEye.shape.set 1 1)
      ∧ ∃ E : NDArray,
          cosine_distance_loss isScalar0 exEye exRowWeights exEye exOut 0 1 = (Status.OK, E)
          ∧ E.shape = [2, 1]
          ∧ ∀ i ∈ indices E.shape,
              E.e i = weightAt isScalar0 exRowWeights i * (1 - dotAlong exEye exEye 1 i))
    ∧ ¬ Broadcastable exEye.shape (exEye.shape.set 1 1) :=
  ⟨⟨(weights_broadcast_off_axis isScalar0 isScalar0_single exEye exRowWeights exEye exOut 2 1 1
        (Or.inl (by rw [loss_status]; decide)) (by decide) (by decide)
        (by decide)).2.1.mpr (by decide),
    (weights_broadcast_off_axis isScalar0 isScalar0_single exEye exRowWeights exEye exOut 2 1 1
        (Or.inl (by rw [loss_status]; decide)) (by decide) (by decide)
        (by decide)).2.2 (by decide)⟩,
   fun h => absurd
    ((weights_broadcast_off_axis isScalar0 isScalar0_single exEye exEye exEye exOut 2 1 1
        (Or.inl (by rw [loss_status]; decide)) (by decide) (by decide)
        (by decide)).2.1.mp h) (by decide)⟩

end nd4j
